import Mathlib

/-!
Verification of the reservation/quiz bot (src/bot.py).

The Python source is shallowly embedded:
* text is `List Char`; the Russian/ASCII lowering and the `re` patterns used by
  the lexical extractors are implemented directly on character lists with the
  same matching order (leftmost match, greedy quantifiers with backtracking) as
  `re.search`, and Python truthiness checks are spelled out;
* `datetime.date` is the `DateT` structure (year/month/day) together with the
  proleptic-Gregorian ordinal used by CPython (`date.toordinal`), so weekday
  arithmetic and date comparisons mirror the source;
* the quiz engine's wall clock is a `Nat` timestamp in seconds (24 h = 86400);
  `random.randint` draws and `datetime.now()` fallbacks are explicit inputs;
* the pandas CSV tables are lists of rows; the per-user quiz row and the
  per-user booking draft are passed and returned explicitly.
-/

set_option maxRecDepth 4000

abbrev Str := List Char

/-! ## Characters: the alphabet the bot works over (ASCII + Cyrillic) -/

/-- Python `str.lower` restricted to the characters the bot handles:
ASCII letters and the Cyrillic block (`А..Я` → `а..я`, `Ё` → `ё`). -/
def ruLower (c : Char) : Char :=
  let n := c.toNat
  if 65 ≤ n ∧ n ≤ 90 then Char.ofNat (n + 32)
  else if 0x410 ≤ n ∧ n ≤ 0x42F then Char.ofNat (n + 0x20)
  else if n = 0x401 then Char.ofNat 0x451
  else c

/-- whitespace as recognised by `str.strip`, `str.split` and `\s` here -/
def isSpa (c : Char) : Bool :=
  c = ' ' ∨ c = '\t' ∨ c = '\n' ∨ c = '\r'

/-- Python `\w` over the bot's alphabet: ASCII alphanumerics, `_`, Cyrillic. -/
def isWordChar (c : Char) : Bool :=
  c.isAlphanum ∨ c = '_' ∨ (0x400 ≤ c.toNat ∧ c.toNat ≤ 0x4FF)

/-- Python `str.isalpha` over the bot's alphabet. -/
def isAlphaRu (c : Char) : Bool :=
  c.isAlpha ∨ (0x410 ≤ c.toNat ∧ c.toNat ≤ 0x44F) ∨ c.toNat = 0x401 ∨ c.toNat = 0x451

/-- `str.strip()` -/
def trimStr (cs : Str) : Str :=
  ((cs.dropWhile isSpa).reverse.dropWhile isSpa).reverse

/-- `normalize_text`: `(t or "").lower().strip()` -/
def normalize_text (cs : Str) : Str :=
  trimStr (cs.map ruLower)

def digitVal (c : Char) : Nat := c.toNat - 48

def natDigitsAux : Nat → Nat → Str
  | 0, _ => []
  | fuel + 1, n =>
    if n < 10 then [Char.ofNat (48 + n)]
    else natDigitsAux fuel (n / 10) ++ [Char.ofNat (48 + n % 10)]

/-- decimal digits of a natural number, most significant first (`n + 1` is
always enough fuel, since `n / 10 < n` for `n ≥ 10`) -/
def natDigits (n : Nat) : Str := natDigitsAux (n + 1) n

/-- `str(n)` for a nonnegative int -/
def natStr (n : Nat) : Str := natDigits n

/-- zero-pad to a given width (`f"{n:0kd}"`) -/
def padNum (width n : Nat) : Str :=
  let s := natDigits n
  List.replicate (width - s.length) '0' ++ s

/-! ## Calendar: CPython `datetime.date` -/

structure DateT where
  y : Nat
  m : Nat
  d : Nat
deriving DecidableEq, Repr

def isLeap (y : Nat) : Bool := (y % 4 = 0 ∧ y % 100 ≠ 0) ∨ y % 400 = 0

def daysInMonth (leap : Bool) (m : Nat) : Nat :=
  match m with
  | 1 => 31 | 2 => if leap then 29 else 28 | 3 => 31 | 4 => 30
  | 5 => 31 | 6 => 30 | 7 => 31 | 8 => 31
  | 9 => 30 | 10 => 31 | 11 => 30 | 12 => 31
  | _ => 0

def daysBeforeMonth (leap : Bool) (m : Nat) : Nat :=
  match m with
  | 1 => 0 | 2 => 31 | 3 => if leap then 60 else 59
  | 4 => if leap then 91 else 90 | 5 => if leap then 121 else 120
  | 6 => if leap then 152 else 151 | 7 => if leap then 182 else 181
  | 8 => if leap then 213 else 212 | 9 => if leap then 244 else 243
  | 10 => if leap then 274 else 273 | 11 => if leap then 305 else 304
  | 12 => if leap then 335 else 334
  | _ => 0

/-- `date(1,1,1).toordinal() = 1`: days before year `y` (CPython formula) -/
def daysBeforeYear (y : Nat) : Nat :=
  365 * (y - 1) + ((y - 1) / 4 - (y - 1) / 100) + (y - 1) / 400

def toOrdinal (D : DateT) : Nat :=
  daysBeforeYear D.y + daysBeforeMonth (isLeap D.y) D.m + D.d

/-- `date.weekday()`: Monday = 0.  `date(1,1,1)` (ordinal 1) was a Monday. -/
def weekdayOf (D : DateT) : Nat := (toOrdinal D + 6) % 7

/-- the argument checks of the `datetime.date` constructor -/
def ValidDate (D : DateT) : Prop :=
  1 ≤ D.y ∧ D.y ≤ 9999 ∧ 1 ≤ D.m ∧ D.m ≤ 12 ∧ 1 ≤ D.d ∧ D.d ≤ daysInMonth (isLeap D.y) D.m

instance (D : DateT) : Decidable (ValidDate D) := by
  unfold ValidDate; infer_instance

def nextDay (D : DateT) : DateT :=
  if D.d < daysInMonth (isLeap D.y) D.m then ⟨D.y, D.m, D.d + 1⟩
  else if D.m < 12 then ⟨D.y, D.m + 1, 1⟩
  else ⟨D.y + 1, 1, 1⟩

def addDays : Nat → DateT → DateT
  | 0, D => D
  | n + 1, D => nextDay (addDays n D)

/-- chronological strict order on dates (what `<` on `datetime.date` means) -/
def dlt (a b : DateT) : Prop :=
  a.y < b.y ∨ (a.y = b.y ∧ (a.m < b.m ∨ (a.m = b.m ∧ a.d < b.d)))

def dle (a b : DateT) : Prop := dlt a b ∨ a = b

instance (a b : DateT) : Decidable (dlt a b) := by unfold dlt; infer_instance
instance (a b : DateT) : Decidable (dle a b) := by unfold dle; infer_instance

/-! ### Calendar lemmas -/

lemma isLeap_eq_true_iff (y : Nat) :
    isLeap y = true ↔ ((y % 4 = 0 ∧ y % 100 ≠ 0) ∨ y % 400 = 0) := by
  simp [isLeap]

lemma daysBeforeYear_succ (y : Nat) (hy : 1 ≤ y) :
    daysBeforeYear (y + 1) = daysBeforeYear y + 365 + (if isLeap y then 1 else 0) := by
  have hiff := isLeap_eq_true_iff y
  unfold daysBeforeYear
  split_ifs with h
  · rw [hiff] at h; omega
  · rw [Bool.not_eq_true, ← Bool.not_eq_true, hiff] at h; omega

lemma daysInMonth_pos (leap : Bool) (m : Nat) (h1 : 1 ≤ m) (h2 : m ≤ 12) :
    1 ≤ daysInMonth leap m := by
  interval_cases m <;> cases leap <;> simp [daysInMonth]

lemma daysBeforeMonth_step (leap : Bool) (m : Nat) (h1 : 1 ≤ m) (h2 : m ≤ 11) :
    daysBeforeMonth leap (m + 1) = daysBeforeMonth leap m + daysInMonth leap m := by
  interval_cases m <;> cases leap <;> simp [daysBeforeMonth, daysInMonth]

lemma daysBeforeMonth_last (leap : Bool) :
    daysBeforeMonth leap 12 + daysInMonth leap 12 = 365 + (if leap then 1 else 0) := by
  cases leap <;> simp [daysBeforeMonth, daysInMonth]

lemma toOrdinal_nextDay (D : DateT) (hv : ValidDate D) :
    toOrdinal (nextDay D) = toOrdinal D + 1 := by
  obtain ⟨hy1, hy2, hm1, hm2, hd1, hd2⟩ := hv
  unfold nextDay
  by_cases hlt : D.d < daysInMonth (isLeap D.y) D.m
  · simp only [if_pos hlt, toOrdinal]
    omega
  · have hde : D.d = daysInMonth (isLeap D.y) D.m := by omega
    by_cases hm : D.m < 12
    · simp only [if_neg hlt, if_pos hm, toOrdinal]
      have hstep := daysBeforeMonth_step (isLeap D.y) D.m hm1 (by omega)
      omega
    · have hme : D.m = 12 := by omega
      simp only [if_neg hlt, if_neg hm, toOrdinal]
      have h1 := daysBeforeYear_succ D.y hy1
      have h2 := daysBeforeMonth_last (isLeap D.y)
      rw [hme] at hde
      rw [hme]
      cases hL : isLeap D.y <;>
        simp only [hL, if_true, if_false, daysBeforeMonth, daysInMonth] at h1 h2 hde ⊢ <;>
        omega

lemma nextDay_valid (D : DateT) (hv : ValidDate D) (hy : D.y ≤ 9998) :
    ValidDate (nextDay D) ∧ (nextDay D).y ≤ D.y + 1 := by
  obtain ⟨hy1, hy2, hm1, hm2, hd1, hd2⟩ := hv
  unfold nextDay
  by_cases hlt : D.d < daysInMonth (isLeap D.y) D.m
  · simp only [if_pos hlt, ValidDate]
    exact ⟨⟨hy1, by omega, hm1, hm2, by omega, by omega⟩, by omega⟩
  · by_cases hm : D.m < 12
    · simp only [if_neg hlt, if_pos hm, ValidDate]
      refine ⟨⟨hy1, by omega, by omega, by omega, by omega, ?_⟩, by omega⟩
      exact daysInMonth_pos _ _ (by omega) (by omega)
    · simp only [if_neg hlt, if_neg hm, ValidDate]
      refine ⟨⟨by omega, by omega, by omega, by omega, by omega, ?_⟩, by omega⟩
      simp [daysInMonth]

lemma addDays_spec (k : Nat) (D : DateT) (hv : ValidDate D) (hk : D.y + k ≤ 9999) :
    ValidDate (addDays k D) ∧ (addDays k D).y ≤ D.y + k ∧
      toOrdinal (addDays k D) = toOrdinal D + k := by
  induction k with
  | zero => refine ⟨hv, ?_, ?_⟩ <;> simp [addDays]
  | succ n ih =>
    obtain ⟨hv', hy', ho'⟩ := ih (by omega)
    obtain ⟨hs1, hs2⟩ := nextDay_valid (addDays n D) hv' (by omega)
    have hord := toOrdinal_nextDay (addDays n D) hv'
    refine ⟨?_, ?_, ?_⟩
    · simpa [addDays] using hs1
    · simp only [addDays]; omega
    · simp only [addDays]; omega

lemma dlt_nextDay (D : DateT) : dlt D (nextDay D) := by
  unfold nextDay dlt
  by_cases hlt : D.d < daysInMonth (isLeap D.y) D.m
  · simp [hlt]
  · by_cases hm : D.m < 12 <;> simp [hlt, hm]

lemma dlt_trans {a b c : DateT} (h1 : dlt a b) (h2 : dlt b c) : dlt a c := by
  unfold dlt at *; omega

lemma dlt_addDays (k : Nat) (D : DateT) (hk : 1 ≤ k) : dlt D (addDays k D) := by
  induction k with
  | zero => omega
  | succ n ih =>
    rcases Nat.eq_zero_or_pos n with h | h
    · subst h; simpa [addDays] using dlt_nextDay D
    · exact dlt_trans (ih h) (by simpa [addDays] using dlt_nextDay (addDays n D))

/-! ## `re.search` scanners

Each Python regex used by the extractors is implemented as a match-at-position
function plus a left-to-right scan (leftmost match wins, as in `re.search`).
Greedy quantifiers are implemented by trying the longest alternative first.
-/

def startsWithL : Str → Str → Bool
  | [], _ => true
  | _ :: _, [] => false
  | p :: ps, c :: cs => p = c && startsWithL ps cs

/-- Python `pat in t` -/
def containsSub (pat : Str) : Str → Bool
  | [] => startsWithL pat []
  | c :: cs => startsWithL pat (c :: cs) || containsSub pat cs

/-- match a literal, returning the rest of the input -/
def litTake : Str → Str → Option Str
  | [], cs => some cs
  | _ :: _, [] => none
  | p :: ps, c :: cs => if p = c then litTake ps cs else none

/-- `\b` before a word character: the previous character must not be a word char -/
def noWordBefore : Option Char → Bool
  | none => true
  | some c => !isWordChar c

/-- `\b` after a word character: the next character must not be a word char -/
def noWordAt : Str → Bool
  | [] => true
  | c :: _ => !isWordChar c

/-- greedy alternatives for `\d{1,2}`: value and rest, longest first -/
def takeDigits12 : Str → List (Nat × Str)
  | [] => []
  | [c1] => if c1.isDigit then [(digitVal c1, [])] else []
  | c1 :: c2 :: rest =>
    if c1.isDigit then
      if c2.isDigit then
        [(digitVal c1 * 10 + digitVal c2, rest), (digitVal c1, c2 :: rest)]
      else [(digitVal c1, c2 :: rest)]
    else []

def parseDigits (ds : Str) : Nat := ds.foldl (fun a c => a * 10 + digitVal c) 0

def takeDigitsExact : Nat → Str → Option (Str × Str)
  | 0, cs => some ([], cs)
  | _ + 1, [] => none
  | n + 1, c :: cs =>
    if c.isDigit then (takeDigitsExact n cs).map (fun p => (c :: p.1, p.2)) else none

/-- greedy alternatives for `\d{2,4}`: lengths 4, 3, 2 -/
def takeDigits24 (cs : Str) : List (Nat × Str) :=
  [4, 3, 2].filterMap (fun n => (takeDigitsExact n cs).map (fun p => (parseDigits p.1, p.2)))

def firstSome {α β : Type} : List α → (α → Option β) → Option β
  | [], _ => none
  | a :: as, f =>
    match f a with
    | some b => some b
    | none => firstSome as f

/-- run a match-at function at every position, leftmost match first -/
def scanFrom {β : Type} (matchAt : Option Char → Str → Option β) :
    Option Char → Str → Option β
  | prev, [] => matchAt prev []
  | prev, c :: cs =>
    match matchAt prev (c :: cs) with
    | some r => some r
    | none => scanFrom matchAt (some c) cs

def searchB (matchAt : Option Char → Str → Bool) : Option Char → Str → Bool
  | prev, [] => matchAt prev []
  | prev, c :: cs => matchAt prev (c :: cs) || searchB matchAt (some c) cs

/-! ### the individual patterns -/

/-- `\b(\d{1,2})[./](\d{1,2})(?:[./](\d{2,4}))?\b` (numeric date) -/
def matchNumDateAt (prev : Option Char) (cs : Str) : Option (Nat × Nat × Option Nat) :=
  if noWordBefore prev then
    firstSome (takeDigits12 cs) (fun dp =>
      match dp.2 with
      | sep :: r2 =>
        if sep = '.' ∨ sep = '/' then
          firstSome (takeDigits12 r2) (fun mp =>
            let withYear : Option (Nat × Nat × Option Nat) :=
              match mp.2 with
              | sep2 :: r4 =>
                if sep2 = '.' ∨ sep2 = '/' then
                  firstSome (takeDigits24 r4) (fun yp =>
                    if noWordAt yp.2 then some (dp.1, mp.1, some yp.1) else none)
                else none
              | [] => none
            match withYear with
            | some v => some v
            | none => if noWordAt mp.2 then some (dp.1, mp.1, none) else none)
        else none
      | [] => none)
  else none

def searchNumDate (t : Str) : Option (Nat × Nat × Option Nat) :=
  scanFrom matchNumDateAt none t

/-- `\b(\d{1,2})[:.](\d{2})\b` (explicit clock time) -/
def matchHHMMAt (prev : Option Char) (cs : Str) : Option (Nat × Nat) :=
  if noWordBefore prev then
    firstSome (takeDigits12 cs) (fun hp =>
      match hp.2 with
      | sep :: r2 =>
        if sep = ':' ∨ sep = '.' then
          match takeDigitsExact 2 r2 with
          | some p => if noWordAt p.2 then some (hp.1, parseDigits p.1) else none
          | none => none
        else none
      | [] => none)
  else none

/-- the `(?:\s*(?:час(?:а|ов)?|ч))?\b` tail of the preposition-hour pattern -/
def hourTailOk (cs : Str) : Bool :=
  let tryUnit : Str → Bool := fun r =>
    (match litTake ("час".data) r with
     | some r2 =>
       (match litTake ("а".data) r2 with
        | some r3 => noWordAt r3
        | none => false) ||
       (match litTake ("ов".data) r2 with
        | some r3 => noWordAt r3
        | none => false) ||
       noWordAt r2
     | none => false) ||
    (match litTake ("ч".data) r with
     | some r2 => noWordAt r2
     | none => false)
  tryUnit (cs.dropWhile isSpa) || noWordAt cs

/-- `\b(?:в|к)\s*(\d{1,2})(?:\s*(?:час(?:а|ов)?|ч))?\b` (preposition + bare hour) -/
def matchPrepHourAt (prev : Option Char) (cs : Str) : Option Nat :=
  if noWordBefore prev then
    match cs with
    | c :: rest =>
      if c = 'в' ∨ c = 'к' then
        firstSome (takeDigits12 (rest.dropWhile isSpa)) (fun hp =>
          if hourTailOk hp.2 then some hp.1 else none)
      else none
    | [] => none
  else none

/-- search for `\b{lit}\w*\b`: boundary plus literal prefix (the `\w*\b` tail
always succeeds after a matched word prefix) -/
def searchWordStart (lit : Str) : Option Char → Str → Bool
  | prev, [] => noWordBefore prev && startsWithL lit []
  | prev, c :: rest =>
    (noWordBefore prev && startsWithL lit (c :: rest)) || searchWordStart lit (some c) rest

def WEEKDAY_FULL : List (Str × Nat) :=
  [("понедельник".data, 0), ("вторник".data, 1), ("среда".data, 2), ("четверг".data, 3),
   ("пятница".data, 4), ("суббота".data, 5), ("воскресенье".data, 6)]

/-- the weekday loop: `re.search(rf"\b{re.escape(w[:-1])}\w*\b", t)` in dict order -/
def searchWeekday (t : Str) : Option Nat :=
  firstSome WEEKDAY_FULL (fun wi =>
    if searchWordStart wi.1.dropLast none t then some wi.2 else none)

/-- the `(?:\s*|-)?(?:го|ого)\b` tail of the day-ordinal pattern -/
def goTailOk (cs : Str) : Bool :=
  let lits : Str → Bool := fun r =>
    (match litTake ("го".data) r with
     | some r2 => noWordAt r2
     | none => false) ||
    (match litTake ("ого".data) r with
     | some r2 => noWordAt r2
     | none => false)
  lits (cs.dropWhile isSpa) ||
  (match cs with
   | c :: r => if c = '-' then lits r else false
   | [] => false)

/-- `\b(\d{1,2})(?:\s*|-)?(?:го|ого)\b` -/
def matchGoAt (prev : Option Char) (cs : Str) : Option Nat :=
  if noWordBefore prev then
    firstSome (takeDigits12 cs) (fun dp => if goTailOk dp.2 then some dp.1 else none)
  else none

/-- `\b(\d{1,2})\s*числа\b` -/
def matchChislaAt (prev : Option Char) (cs : Str) : Option Nat :=
  if noWordBefore prev then
    firstSome (takeDigits12 cs) (fun dp =>
      match litTake ("числа".data) (dp.2.dropWhile isSpa) with
      | some r2 => if noWordAt r2 then some dp.1 else none
      | none => none)
  else none

def rangeSeps : List Str := ["-".data, "—".data, "–".data, "or".data, "до".data]

/-- `\b(\d{1,2})\s*(?:-|—|–|or|до)\s*(\d{1,2})\b` (explicit numeric guest range) -/
def matchNumRangeAt (prev : Option Char) (cs : Str) : Option (Nat × Nat) :=
  if noWordBefore prev then
    firstSome (takeDigits12 cs) (fun ap =>
      firstSome rangeSeps (fun sep =>
        match litTake sep (ap.2.dropWhile isSpa) with
        | some r2 =>
          firstSome (takeDigits12 (r2.dropWhile isSpa)) (fun bp =>
            if noWordAt bp.2 then some (ap.1, bp.1) else none)
        | none => none))
  else none

def WORDS_TO_NUM : List (Str × Nat) :=
  [("один".data,1),("одна".data,1),("по одному".data,1),
   ("двое".data,2),("двоих".data,2),("двух".data,2),("вдвоем".data,2),("вдвоём".data,2),
   ("на двоих".data,2),
   ("трое".data,3),("троих".data,3),("трех".data,3),("трёх".data,3),("втроем".data,3),
   ("втроём".data,3),("на троих".data,3),
   ("четверо".data,4),("четверых".data,4),("четырех".data,4),("четырёх".data,4),
   ("вчетвером".data,4),("на четверых".data,4),
   ("пятеро".data,5),("пятерых".data,5),("пяти".data,5),("на пятерых".data,5),
   ("шестеро".data,6),("шестерых".data,6),("шести".data,6),("на шестерых".data,6),
   ("семеро".data,7),("семерых".data,7),("семи".data,7),("на семерых".data,7),
   ("восьмеро".data,8),("восьмерых".data,8),("восьми".data,8),("на восьмерых".data,8),
   ("девятеро".data,9),("девятерых".data,9),("девяти".data,9),("на девятерых".data,9),
   ("десятеро".data,10),("десятерых".data,10),("десяти".data,10),("на десятерых".data,10)]

def wordRangeSeps : List Str := ["или".data, "до".data, "-".data, "—".data, "–".data]

/-- `(w1|...)\s*(?:или|до|-|—|–)\s*(w1|...)` over the number-word vocabulary
(note: the source pattern has no word boundaries); returns the mapped values -/
def matchWordRangeAt (_prev : Option Char) (cs : Str) : Option (Nat × Nat) :=
  firstSome WORDS_TO_NUM (fun w1 =>
    match litTake w1.1 cs with
    | some r1 =>
      firstSome wordRangeSeps (fun sep =>
        match litTake sep (r1.dropWhile isSpa) with
        | some r2 =>
          firstSome WORDS_TO_NUM (fun w2 =>
            match litTake w2.1 (r2.dropWhile isSpa) with
            | some _ => some (w1.2, w2.2)
            | none => none)
        | none => none)
    | none => none)

/-- `\s+` -/
def dropSpaces1 : Str → Option Str
  | [] => none
  | c :: r => if isSpa c then some (r.dropWhile isSpa) else none

/-- `\bот\s+(\d{1,2})\s+до\s+(\d{1,2})\b` -/
def matchFromToAt (prev : Option Char) (cs : Str) : Option (Nat × Nat) :=
  if noWordBefore prev then
    match litTake ("от".data) cs with
    | some r1 =>
      match dropSpaces1 r1 with
      | some r2 =>
        firstSome (takeDigits12 r2) (fun ap =>
          match dropSpaces1 ap.2 with
          | some r4 =>
            match litTake ("до".data) r4 with
            | some r5 =>
              match dropSpaces1 r5 with
              | some r6 =>
                firstSome (takeDigits12 r6) (fun bp =>
                  if noWordAt bp.2 then some (ap.1, bp.1) else none)
              | none => none
            | none => none
          | none => none)
      | none => none
    | none => none
  else none

/-- `\bдо\s+(\d{1,2})\b` -/
def matchDoNumAt (prev : Option Char) (cs : Str) : Option Nat :=
  if noWordBefore prev then
    match litTake ("до".data) cs with
    | some r1 =>
      match dropSpaces1 r1 with
      | some r2 =>
        firstSome (takeDigits12 r2) (fun np =>
          if noWordAt np.2 then some np.1 else none)
      | none => none
    | none => none
  else none

/-- `\bдо\s+{w}\b` -/
def matchDoWordAt (w : Str) (prev : Option Char) (cs : Str) : Bool :=
  noWordBefore prev &&
  (match litTake ("до".data) cs with
   | some r1 =>
     match dropSpaces1 r1 with
     | some r2 =>
       match litTake w r2 with
       | some r3 => noWordAt r3
       | none => false
     | none => false
   | none => false)

/-- `\b{w}\b` -/
def matchWholeWordAt (w : Str) (prev : Option Char) (cs : Str) : Bool :=
  noWordBefore prev &&
  (match litTake w cs with
   | some r => noWordAt r
   | none => false)

/-- `(?:\bна|\bдля)?\s*(\d{1,2})\b` (note: no boundary before the digits when
the optional prefix is absent) -/
def matchBareNumAt (prev : Option Char) (cs : Str) : Option Nat :=
  let afterOpt : Str → Option Nat := fun r =>
    firstSome (takeDigits12 (r.dropWhile isSpa)) (fun np =>
      if noWordAt np.2 then some np.1 else none)
  let tryNa : Option Nat :=
    if noWordBefore prev then
      match litTake ("на".data) cs with
      | some r => afterOpt r
      | none => none
    else none
  match tryNa with
  | some n => some n
  | none =>
    let tryDlya : Option Nat :=
      if noWordBefore prev then
        match litTake ("для".data) cs with
        | some r => afterOpt r
        | none => none
      else none
    match tryDlya with
    | some n => some n
    | none => afterOpt cs

/-- the character class `[\d\s\-\(\)]` of `PHONE_RE` -/
def phoneClassChar (c : Char) : Bool :=
  c.isDigit || isSpa c || c = '-' || c = '(' || c = ')'

def dropTrailingNonDigits (cs : Str) : Str :=
  (cs.reverse.dropWhile (fun c => !c.isDigit)).reverse

/-- `(\+?\d[\d\s\-\(\)]{6,}\d)` — greedy class run, backtracking to the last
digit of the run (a `+` followed by a non-digit can never match) -/
def matchPhoneAt (_prev : Option Char) (cs : Str) : Option Str :=
  let core : Bool → Str → Option Str := fun plus r =>
    match r with
    | c :: rest =>
      if c.isDigit then
        let kept := dropTrailingNonDigits (rest.takeWhile phoneClassChar)
        if 7 ≤ kept.length then
          some ((if plus then ['+'] else []) ++ c :: kept)
        else none
      else none
    | [] => none
  match cs with
  | '+' :: rest => core true rest
  | _ => core false cs

/-! ## Lexical extractors (`bot.py` lines 453–551) -/

def splitWsAux : Str → Str → List Str
  | cur, [] => if cur.isEmpty then [] else [cur.reverse]
  | cur, c :: cs =>
    if isSpa c then
      if cur.isEmpty then splitWsAux [] cs else cur.reverse :: splitWsAux [] cs
    else splitWsAux (c :: cur) cs

/-- Python `str.split()` (split on whitespace runs, no empty tokens) -/
def splitWs (cs : Str) : List Str := splitWsAux [] cs

def joinSpace (ws : List Str) : Str := List.intercalate [' '] ws

/-- `extract_phone` -/
def extract_phone (text : Str) : Option Str :=
  let t := normalize_text text
  match scanFrom matchPhoneAt none t with
  | none => none
  | some raw =>
    -- the matched group starts with `+` or a digit and ends with a digit,
    -- so `raw.strip()` is `raw`; `+` is kept only at index 0
    let cleaned : Str :=
      match raw with
      | c :: rest => (if c.isDigit ∨ c = '+' then [c] else []) ++ rest.filter Char.isDigit
      | [] => []
    if 8 ≤ (cleaned.filter Char.isDigit).length then some cleaned else none

/-- `extract_name_from_contact_text` (works on the raw, un-normalized text) -/
def extract_name_from_contact_text (text : Str) (phone : Option Str) : Option Str :=
  if text.isEmpty then none
  else
    let t : Str :=
      match phone with
      | some _ =>
        text.map (fun c =>
          if c = '+' ∨ c = '-' ∨ c = '(' ∨ c = ')' ∨ c = ' ' ∨ c.isDigit then ' ' else c)
      | none => text
    let name := joinSpace ((splitWs t).filter (fun w => w.all isAlphaRu))
    if name.isEmpty then none else some name

/-- second pattern of `extract_time`: preposition + bare hour, with the
evening/night heuristic -/
def timeSecondPass (t : Str) : Option Str :=
  match scanFrom matchPrepHourAt none t with
  | some hh0 =>
    if hh0 ≤ 23 then
      let hh :=
        if hh0 ≤ 11 ∧ (containsSub ("вечер".data) t ∨ containsSub ("ноч".data) t) then
          hh0 + 12
        else hh0
      some (padNum 2 hh ++ ":00".data)
    else none
  | none => none

/-- `extract_time` -/
def extract_time (text : Str) : Option Str :=
  let t := normalize_text text
  match scanFrom matchHHMMAt none t with
  | some p =>
    if p.1 ≤ 23 ∧ p.2 ≤ 59 then some (padNum 2 p.1 ++ ':' :: padNum 2 p.2)
    else timeSecondPass t
  | none => timeSecondPass t

/-- `datetime(y, mth, d).date()` inside `try/except ValueError` -/
def safeDate (y m d : Nat) : Option DateT :=
  if ValidDate ⟨y, m, d⟩ then some ⟨y, m, d⟩ else none

/-- `(idx - today.weekday()) % 7 or 7` — Python `%` on a positive modulus is
`Int.emod` -/
def pyShift (idx wd : Nat) : Nat :=
  let s : Int := ((idx : Int) - (wd : Int)) % 7
  (if s = 0 then (7 : Int) else s).toNat

def weekdayShiftDate (idx : Nat) (today : DateT) : DateT :=
  addDays (pyShift idx (weekdayOf today)) today

/-- the day-ordinal rule of `extract_date` ("Nго"/"N числа"): nearest future
occurrence, rolling to next month when past or invalid -/
def ordinalDayRule (day : Nat) (today : DateT) : Option DateT :=
  let cand0 := safeDate today.y today.m day
  let needRoll : Bool :=
    match cand0 with
    | none => true
    | some c => decide (dle c today)
  if needRoll then
    let next : Nat × Nat := if today.m = 12 then (today.y + 1, 1) else (today.y, today.m + 1)
    safeDate next.1 next.2 day
  else cand0

/-- `extract_date` after the numeric pattern: relative keywords, weekday names,
day ordinals (note `"завтра" in t` also fires for "послезавтра", as in the
source) -/
def extract_date_rest (t : Str) (now : DateT) : Option DateT :=
  if containsSub ("сегодня".data) t then some now
  else if containsSub ("завтра".data) t then some (nextDay now)
  else if containsSub ("послезавтра".data) t ∨ containsSub ("после завтра".data) t then
    some (nextDay (nextDay now))
  else
    match searchWeekday t with
    | some idx => some (weekdayShiftDate idx now)
    | none =>
      match scanFrom matchGoAt none t with
      | some day => ordinalDayRule day now
      | none =>
        match scanFrom matchChislaAt none t with
        | some day => ordinalDayRule day now
        | none => none

/-- `extract_date` -/
def extract_date (text : Str) (now : DateT) : Option DateT :=
  let t := normalize_text text
  match searchNumDate t with
  | some r =>
    let y : Nat :=
      match r.2.2 with
      | some yv => if yv < 100 then yv + 2000 else yv
      | none => now.y
    match safeDate y r.2.1 r.1 with
    | some dt => some dt
    | none => extract_date_rest t now   -- ValueError → pass → later patterns
  | none => extract_date_rest t now

/-- rules (c)–(g) of `extract_guests_range`: "от N до M", "до N", "до {word}",
single number word, bare integer in 1..20 -/
def guestsTail3 (t : Str) : Option Nat × Option Nat :=
  match scanFrom matchFromToAt none t with
  | some p => (some (min p.1 p.2), some (max p.1 p.2))
  | none =>
    match scanFrom matchDoNumAt none t with
    | some n => (none, some n)
    | none =>
      match firstSome WORDS_TO_NUM
          (fun w => if searchB (matchDoWordAt w.1) none t then some w.2 else none) with
      | some n => (none, some n)
      | none =>
        match firstSome WORDS_TO_NUM
            (fun w => if searchB (matchWholeWordAt w.1) none t then some w.2 else none) with
        | some n => (some n, some n)
        | none =>
          match scanFrom matchBareNumAt none t with
          | some n => if 1 ≤ n ∧ n ≤ 20 then (some n, some n) else (none, none)
          | none => (none, none)

/-- `extract_guests_range` -/
def extract_guests_range (text : Str) : Option Nat × Option Nat :=
  let t := normalize_text text
  if t.isEmpty then (none, none)
  else
    match scanFrom matchNumRangeAt none t with
    | some p => (some (min p.1 p.2), some (max p.1 p.2))   -- `sorted((a, b))`
    | none =>
      match scanFrom matchWordRangeAt none t with
      | some p =>
        -- `if a and b:` — both looked-up values must be truthy
        if p.1 ≠ 0 ∧ p.2 ≠ 0 then (some (min p.1 p.2), some (max p.1 p.2))
        else guestsTail3 t
      | none => guestsTail3 t

/-- `parse_booking_phrase` -/
def parse_booking_phrase (text : Str) (now : DateT) :
    Option DateT × Option Str × (Option Nat × Option Nat) :=
  (extract_date text now, extract_time text, extract_guests_range text)

/-! ## Intent classification (`bot.py` lines 554–569) -/

inductive Intent
  | menu
  | venue
  | quiz
  | book
deriving DecidableEq, Repr

def INTENT_KEYWORDS : List (Intent × List Str) :=
  [(.menu, ["меню".data, "посмотреть меню".data, "карта".data, "барная карта".data,
            "лист".data]),
   (.venue, ["адрес".data, "где вы".data, "как добраться".data, "работаете".data,
             "часы".data, "до скольки".data, "во сколько".data, "контакты".data,
             "телефон".data]),
   (.quiz, ["викторина".data, "квиз".data, "приз".data, "розыгрыш".data]),
   (.book, ["бронь".data, "заброни".data, "резерв".data, "столик".data, "стол".data,
            "посадка".data])]

def detect_intent (text : Str) (in_booking_flow : Bool) : Option Intent :=
  let t := normalize_text text
  if in_booking_flow then
    match firstSome INTENT_KEYWORDS (fun ik =>
        if ik.1 = Intent.book then none
        else if ik.2.any (fun k => containsSub k t) then some ik.1 else none) with
    | some i => some i
    | none => some Intent.book
  else
    firstSome INTENT_KEYWORDS (fun ik =>
      if ik.2.any (fun k => containsSub k t) then some ik.1 else none)

/-! ## Booking dialogue state and records -/

/-- the per-user `BOOK_STATE` dict; a missing key is `none` -/
structure Draft where
  date : Option DateT
  time : Option Str
  guests_min : Option Nat
  guests_max : Option Nat
  phone : Option Str
  name : Option Str
deriving DecidableEq, Repr

def emptyDraft : Draft := ⟨none, none, none, none, none, none⟩

/-- one row of `bookings.csv` -/
structure Resv where
  id : Nat
  tg_user_id : Nat
  name : Str
  phone : Str
  guests : Nat
  guests_range : Str
  date : Str
  time : Str
  comment : Str
  status : Str
  venue_id : Nat
  created_at : Str
  updated_at : Str
deriving DecidableEq, Repr

/-- `date_o.isoformat()` -/
def isoDate (D : DateT) : Str :=
  padNum 4 D.y ++ '-' :: padNum 2 D.m ++ '-' :: padNum 2 D.d

/-- `strftime("%d.%m.%Y")` -/
def dmyDate (D : DateT) : Str :=
  padNum 2 D.d ++ '.' :: padNum 2 D.m ++ '.' :: padNum 4 D.y

/-- `next_booking_id` -/
def next_booking_id (df : List Resv) : Nat :=
  match df with
  | [] => 1
  | _ => (df.map (fun r => r.id)).foldl max 0 + 1

/-- `str(x)` for the int-or-None values in the summary (`str(None) = "None"`) -/
def optNatStr : Option Nat → Str
  | some n => natStr n
  | none => "None".data

/-- the operator notification of `finalize_booking` with its two buttons -/
structure AdminNote where
  bid : Nat
  approve_cb : Str
  reject_cb : Str
deriving DecidableEq, Repr

inductive BookReply
  | finalPrompt
  | recorded (r : Resv)
  | prompt (known : List Str) (missing : List Str)
  | unknown
  | noReply
deriving DecidableEq, Repr

def optTruthy (o : Option Nat) : Bool :=
  match o with
  | some v => v ≠ 0
  | none => false

/-- the guests entry of the "known so far" summary -/
def renderGuestsPart (st : Draft) : Option Str :=
  if optTruthy st.guests_min ∨ optTruthy st.guests_max then
    let g1 := st.guests_min
    let g2 := match st.guests_max with
      | some v => some v
      | none => g1
    some (if optTruthy g1 ∧ optTruthy g2 ∧ g1 ≠ g2 then
            optNatStr g1 ++ "–".data ++ optNatStr g2 ++ " чел.".data
          else optNatStr (if optTruthy g2 then g2 else g1) ++ " чел.".data)
  else none

/-- the `parts` list of the booking prompt -/
def knownParts (st : Draft) : List Str :=
  (match st.date with
   | some dO => [dmyDate dO]
   | none => []) ++
  (match st.time with
   | some s => if s.isEmpty then [] else [s]
   | none => []) ++
  (match renderGuestsPart st with
   | some s => [s]
   | none => []) ++
  (match st.phone with
   | some p => if p.isEmpty then [] else ["тел. ".data ++ p]
   | none => [])

structure FinOut where
  bookings : List Resv
  draft : Option Draft
  reply : BookReply
  admin : Option AdminNote
deriving DecidableEq, Repr

/-- `finalize_booking` (lines 862–925).  On the defensive-recheck failure the
source replies and returns without touching `BOOK_STATE`, so the draft stays;
`BOOK_STATE.pop(uid)` runs only at the very end of the success path. -/
def finalize_booking (nowTs : Str) (adminOn : Bool) (uid : Nat) (fullName : Str)
    (st : Draft) (bookings : List Resv) : FinOut :=
  let name := st.name.getD (if fullName.isEmpty then "Гость".data else fullName)
  let phone := trimStr (st.phone.getD [])
  let time_s := st.time.getD ("20:00".data)
  let gmin := st.guests_min
  let gmax := match st.guests_max with
    | some v => some v
    | none => gmin
  match st.date, gmax with
  | some dO, some gM =>
    if time_s.isEmpty ∨ gM = 0 ∨ phone.isEmpty then
      ⟨bookings, some st, .finalPrompt, none⟩
    else
      let grange : Str :=
        match gmin with
        | some gm => if gm ≠ 0 ∧ gm ≠ gM then natStr gm ++ '-' :: natStr gM else natStr gM
        | none => natStr gM
      let row : Resv :=
        ⟨next_booking_id bookings, uid, name, phone, gM, grange, isoDate dO, time_s,
         [], "new".data, 1, nowTs, nowTs⟩
      let admin : Option AdminNote :=
        if adminOn then
          some ⟨row.id, "admin:confirm:".data ++ natStr row.id,
                "admin:cancel:".data ++ natStr row.id⟩
        else none
      ⟨bookings ++ [row], none, .recorded row, admin⟩
  | _, _ => ⟨bookings, some st, .finalPrompt, none⟩

/-- the side action a non-`book` intent triggers before the booking branch -/
def sideIntent : Option Intent → Option Intent
  | some Intent.menu => some Intent.menu
  | some Intent.venue => some Intent.venue
  | some Intent.quiz => some Intent.quiz
  | _ => none

structure RouterOut where
  draft : Option Draft
  bookings : List Resv
  intentAct : Option Intent
  booking : BookReply
  admin : Option AdminNote
deriving DecidableEq, Repr

def optStrTruthy (o : Option Str) : Bool :=
  match o with
  | some s => !s.isEmpty
  | none => false

/-- the field-by-field merge of lines 821–832: newly extracted values
overwrite, absent ones leave the old field; the name is extracted only when a
phone was found, and defaults to the caller's display name -/
def mergeBooking (st1 : Draft) (d : Option DateT) (t : Option Str)
    (g : Option Nat × Option Nat) (phone : Option Str) (nm : Option Str)
    (deflt : Str) : Draft :=
  { date := if d.isSome then d else st1.date
    time := match t with
      | some s => if s.isEmpty then st1.time else some s
      | none => st1.time
    guests_min := match g.1 with
      | some v => some v
      | none => st1.guests_min
    guests_max := match g.2 with
      | some v => some v
      | none => st1.guests_max
    phone := match phone with
      | some p => some p
      | none => st1.phone
    name :=
      let n1 : Option Str := match phone with
        | some _ =>
          match nm with
          | some s => if s.isEmpty then st1.name else some s
          | none => st1.name
        | none => st1.name
      match n1 with
      | some s => some s
      | none => some deflt }

/-- the missing-field set of lines 835–840 -/
def missingOf (st4 : Draft) : List Str :=
  (if st4.date.isNone then ["дату".data] else []) ++
  (if st4.time.isNone then ["время".data] else []) ++
  (if st4.guests_max.isNone ∧ st4.guests_min.isNone then
     ["кол-во гостей (можно диапазон)".data]
   else []) ++
  (if st4.phone.isNone then ["телефон (и имя)".data] else [])

/-- `universal_router` (lines 805–860), restricted to one user's draft entry.
The quiz side of a `quiz` intent is recorded in `intentAct` (it touches the quiz
subsystem modelled separately). -/
def universal_router (now : DateT) (nowTs : Str) (adminOn : Bool) (uid : Nat)
    (fullName : Str) (text : Str) (st0 : Option Draft) (bookings : List Resv) :
    RouterOut :=
  let intent := detect_intent text st0.isSome
  let d := extract_date text now
  let t := extract_time text
  let g := extract_guests_range text
  let has_clues := d.isSome ∨ optStrTruthy t ∨ optTruthy g.1 ∨ optTruthy g.2
  if intent = some Intent.book ∨ st0.isSome ∨ has_clues then
    let phone := extract_phone text
    let nm : Option Str := match phone with
      | some _ => extract_name_from_contact_text text phone
      | none => none
    let st4 := mergeBooking (st0.getD emptyDraft) d t g phone nm
      (if fullName.isEmpty then "Гость".data else fullName)
    let missing := missingOf st4
    if missing.isEmpty then
      let f := finalize_booking nowTs adminOn uid fullName st4 bookings
      ⟨f.draft, f.bookings, sideIntent intent, f.reply, f.admin⟩
    else
      ⟨some st4, bookings, sideIntent intent, .prompt (knownParts st4) missing, none⟩
  else
    if intent.isNone ∧ st0.isNone then
      ⟨st0, bookings, none, .unknown, none⟩
    else
      ⟨st0, bookings, sideIntent intent, .noReply, none⟩

/-! ## Quiz engine (`bot.py` lines 209–431) and coupons (252–273)

One user's `quiz_users.csv` row is a `QuizUser`; the process-wide
`QUIZ_STATE` dict is a function `Nat → Option Char`; the coupon ledger is a
list of rows.  `random.sample` question picks and `random.randint` code draws
are explicit inputs; `datetime.now()` is a `Nat` second count. -/

structure QuizUser where
  user_id : Nat
  streak : Nat
  locked_until : Option Nat
  awarded : Nat
  last_played_at : Option Nat
  current_qid : Nat
deriving DecidableEq, Repr

def freshQuizUser (uid : Nat) : QuizUser := ⟨uid, 0, none, 0, none, 0⟩

/-- a picked question row, after `make_qid` and the option-schema scan -/
structure QRow where
  qid : Nat
  options : List (Char × Str)
  correct_raw : Str
deriving DecidableEq, Repr

/-- lines 334–345: prefer an explicit a/b/c/d `correct` value, else match the
literal against the option texts case-insensitively, else the first option -/
def resolveCorrect (o1 : Char × Str) (opts : List (Char × Str)) (correct_raw : Str) :
    Char :=
  let cr := correct_raw.map ruLower
  if cr = ['a'] ∨ cr = ['b'] ∨ cr = ['c'] ∨ cr = ['d'] then
    match cr with
    | c :: _ => c
    | [] => 'a'
  else
    match opts.find? (fun ov => ov.2.map ruLower = cr) with
    | some ov => ov.1
    | none => o1.1

inductive StartResult
  | alreadyWon
  | lockedMsg (untilT : Nat)
  | noQuestions
  | asked (qid : Nat) (correct : Char)
deriving DecidableEq, Repr

structure StartOut where
  st : QuizUser
  qmap : Nat → Option Char
  result : StartResult

def qmapInsert (m : Nat → Option Char) (k : Nat) (v : Char) : Nat → Option Char :=
  fun x => if x = k then some v else m x

def qmapErase (m : Nat → Option Char) (k : Nat) : Nat → Option Char :=
  fun x => if x = k then none else m x

/-- the question-presentation tail of `start_quiz_for_user`: the source retries
with a fresh random pick when a row has no options; the successive picks are
the `picks` list, and running out of picks models an empty catalog -/
def startAsk (now : Nat) (st : QuizUser) (qmap : Nat → Option Char) :
    List QRow → StartOut
  | [] => ⟨st, qmap, .noQuestions⟩
  | row :: rest =>
    match row.options with
    | [] => startAsk now st qmap rest
    | o1 :: _ =>
      let correct := resolveCorrect o1 row.options row.correct_raw
      ⟨{ st with current_qid := row.qid, last_played_at := some now },
       qmapInsert qmap row.qid correct, .asked row.qid correct⟩

/-- `start_quiz_for_user` (lines 290–356) -/
def start_quiz_for_user (now : Nat) (st : QuizUser) (qmap : Nat → Option Char)
    (picks : List QRow) : StartOut :=
  if st.awarded = 1 then ⟨st, qmap, .alreadyWon⟩
  else
    match st.locked_until with
    | some u =>
      if now < u then ⟨st, qmap, .lockedMsg u⟩
      else startAsk now { st with locked_until := none } qmap picks
    | none => startAsk now st qmap picks

/-! ### Coupons -/

structure Coupon where
  code : Str
  user_id : Nat
  username : Str
  full_name : Str
  issued_at : Nat
deriving DecidableEq, Repr

/-- the `for _ in range(10000)` retry loop: `f"{draw:06d}"`, rejecting codes
already present -/
def genCodeLoop (existing : List Str) (draws : Nat → Nat) : Nat → Nat → Option Str
  | _, 0 => none
  | i, fuel + 1 =>
    let code := padNum 6 (draws i)
    if code ∈ existing then genCodeLoop existing draws (i + 1) fuel else some code

/-- `datetime.now().strftime("%H%M%S")` -/
def formatHMS (now : Nat) : Str :=
  padNum 2 (now / 3600 % 24) ++ padNum 2 (now / 60 % 60) ++ padNum 2 (now % 60)

/-- `generate_unique_coupon_code` -/
def generate_unique_coupon_code (existing : List Str) (draws : Nat → Nat) (now : Nat) :
    Str :=
  match genCodeLoop existing draws 0 10000 with
  | some code => code
  | none => formatHMS now

/-- `issue_coupon_to_user`: generate, append the ledger row, return the code -/
def issue_coupon_to_user (coupons : List Coupon) (draws : Nat → Nat) (now : Nat)
    (uid : Nat) (username full_name : Str) : List Coupon × Str :=
  let code := generate_unique_coupon_code (coupons.map (fun c => c.code)) draws now
  (coupons ++ [⟨code, uid, username, full_name, now⟩], code)

/-! ### The answer callback -/

inductive AnswerRes
  | alreadyWon
  | staleQ (restart : StartResult)
  | correctNext (remaining : Nat) (restart : StartResult)
  | wonCoupon (code : Str)
  | wonRepeat
  | wrongLocked (untilT : Nat)
deriving DecidableEq, Repr

structure CbEnv where
  draws : Nat → Nat
  picks : List QRow
  username : Str
  full_name : Str

structure CbOut where
  st : QuizUser
  qmap : Nat → Option Char
  coupons : List Coupon
  res : AnswerRes

/-- `cb_quiz_answer` (lines 358–431).  The trailing `QUIZ_STATE.pop(qid)` runs
on the correct-with-chain and incorrect paths (after any restart registered a
new question); the award path pops before returning; the already-won and
stale paths return early without popping. -/
def cb_quiz_answer (now : Nat) (uid : Nat) (st : QuizUser) (qmap : Nat → Option Char)
    (coupons : List Coupon) (qid : Nat) (opt : Char) (env : CbEnv) : CbOut :=
  if st.awarded = 1 then
    ⟨st, qmap, coupons, .alreadyWon⟩
  else
    match qmap qid with
    | none =>
      let s := start_quiz_for_user now st qmap env.picks
      ⟨s.st, s.qmap, coupons, .staleQ s.result⟩
    | some correct =>
      if opt = correct then
        let st1 := { st with streak := st.streak + 1, current_qid := 0 }
        if 3 ≤ st1.streak then
          if st1.awarded = 0 then
            let ic := issue_coupon_to_user coupons env.draws now uid env.username
              env.full_name
            ⟨{ st1 with awarded := 1, streak := 0 }, qmapErase qmap qid, ic.1,
             .wonCoupon ic.2⟩
          else
            ⟨{ st1 with streak := 0 }, qmapErase qmap qid, coupons, .wonRepeat⟩
        else
          let s := start_quiz_for_user now st1 qmap env.picks
          ⟨s.st, qmapErase s.qmap qid, coupons, .correctNext (3 - st1.streak) s.result⟩
      else
        ⟨{ st with streak := 0, current_qid := 0, locked_until := some (now + 86400) },
         qmapErase qmap qid, coupons, .wrongLocked (now + 86400)⟩

/-! ## Helper lemmas about the quiz engine -/

lemma startAsk_fields (now : Nat) (st : QuizUser) (qmap : Nat → Option Char)
    (picks : List QRow) :
    (startAsk now st qmap picks).st.awarded = st.awarded ∧
    (startAsk now st qmap picks).st.streak = st.streak ∧
    (startAsk now st qmap picks).st.locked_until = st.locked_until := by
  induction picks with
  | nil => exact ⟨rfl, rfl, rfl⟩
  | cons row rest ih =>
    cases hop : row.options with
    | nil => simpa [startAsk, hop] using ih
    | cons o os => simp [startAsk, hop]

lemma start_fields (now : Nat) (st : QuizUser) (qmap : Nat → Option Char)
    (picks : List QRow) :
    (start_quiz_for_user now st qmap picks).st.awarded = st.awarded ∧
    (start_quiz_for_user now st qmap picks).st.streak = st.streak ∧
    ((start_quiz_for_user now st qmap picks).st.locked_until = st.locked_until ∨
      (start_quiz_for_user now st qmap picks).st.locked_until = none) := by
  unfold start_quiz_for_user
  by_cases ha : st.awarded = 1
  · simp [ha]
  · simp only [ha, if_false]
    cases hl : st.locked_until with
    | none =>
      have h := startAsk_fields now st qmap picks
      exact ⟨h.1, h.2.1, Or.inl (h.2.2.trans hl)⟩
    | some u =>
      by_cases hn : now < u
      · simp [hl, hn]
      · simp only [hl, hn, if_false]
        have h := startAsk_fields now { st with locked_until := none } qmap picks
        exact ⟨h.1, h.2.1, Or.inr h.2.2⟩

/-! ## C1 — streak award is issued once and `awarded` is terminal -/

/-- C1: for a user with `awarded = 0`, the answer that completes a streak of
three consecutive correct answers appends exactly one coupon to the ledger and
sets `awarded = 1`; with `awarded = 1`, starting an attempt and answering any
question (including clicks on stale buttons) are rejected without changing any
state, and no modelled transition ever lowers `awarded`. -/
theorem c1_streak_award_once_terminal :
    (∀ now st qmap picks, st.awarded = 1 →
      start_quiz_for_user now st qmap picks = ⟨st, qmap, .alreadyWon⟩) ∧
    (∀ now uid st qmap coupons qid opt env, st.awarded = 1 →
      cb_quiz_answer now uid st qmap coupons qid opt env =
        ⟨st, qmap, coupons, .alreadyWon⟩) ∧
    (∀ now uid st qmap coupons qid c env, st.awarded = 0 → 2 ≤ st.streak →
      qmap qid = some c →
      (cb_quiz_answer now uid st qmap coupons qid c env).st.awarded = 1 ∧
      (cb_quiz_answer now uid st qmap coupons qid c env).st.streak = 0 ∧
      (cb_quiz_answer now uid st qmap coupons qid c env).coupons =
        coupons ++ [⟨generate_unique_coupon_code (coupons.map (fun x => x.code))
                       env.draws now, uid, env.username, env.full_name, now⟩] ∧
      (cb_quiz_answer now uid st qmap coupons qid c env).res =
        .wonCoupon (generate_unique_coupon_code (coupons.map (fun x => x.code))
                      env.draws now)) ∧
    (∀ now uid st qmap coupons qid opt env,
      st.awarded ≤ (cb_quiz_answer now uid st qmap coupons qid opt env).st.awarded) ∧
    (∀ now st qmap picks,
      st.awarded ≤ (start_quiz_for_user now st qmap picks).st.awarded) := by
  have hstart : ∀ now st qmap picks,
      st.awarded ≤ (start_quiz_for_user now st qmap picks).st.awarded := by
    intro now st qmap picks
    rw [(start_fields now st qmap picks).1]
  refine ⟨?_, ?_, ?_, ?_, hstart⟩
  · intro now st qmap picks h
    simp [start_quiz_for_user, h]
  · intro now uid st qmap coupons qid opt env h
    simp [cb_quiz_answer, h]
  · intro now uid st qmap coupons qid c env h0 hs hq
    have h1 : ¬ st.awarded = 1 := by omega
    unfold cb_quiz_answer
    rw [hq, if_neg h1]
    simp only [if_true]
    rw [if_pos (show 3 ≤ st.streak + 1 by omega), if_pos h0]
    simp [issue_coupon_to_user]
  · intro now uid st qmap coupons qid opt env
    have hsa : ∀ st2 : QuizUser, (start_quiz_for_user now st2 qmap env.picks).st.awarded = st2.awarded :=
      fun st2 => (start_fields now st2 qmap env.picks).1
    unfold cb_quiz_answer
    by_cases h1 : st.awarded = 1
    · simp [h1]
    · simp only [h1, if_false]
      cases hq : qmap qid with
      | none =>
        simp [hsa st]
      | some c =>
        by_cases ho : opt = c
        · subst ho
          by_cases h3 : 3 ≤ st.streak + 1
          · by_cases h0 : st.awarded = 0 <;> simp [h3, h0]
          · simp [h3, hsa { st with streak := st.streak + 1, current_qid := 0 }]
        · simp [ho]

def c1wSt1 : QuizUser := ⟨7, 0, none, 1, none, 0⟩

def c1wStA : QuizUser := ⟨7, 2, none, 0, none, 5⟩

def c1wQmap : Nat → Option Char := fun x => if x = 5 then some 'b' else none

def c1wEnv : CbEnv := ⟨fun _ => 3, [], "u".data, "n".data⟩

/-- witness for C1 at concrete inputs -/
theorem c1_streak_award_once_terminal_witness :
    start_quiz_for_user 100 c1wSt1 c1wQmap [] = ⟨c1wSt1, c1wQmap, .alreadyWon⟩ ∧
    cb_quiz_answer 100 7 c1wSt1 c1wQmap [] 5 'b' c1wEnv =
      ⟨c1wSt1, c1wQmap, [], .alreadyWon⟩ ∧
    (cb_quiz_answer 100 7 c1wStA c1wQmap [] 5 'b' c1wEnv).st.awarded = 1 ∧
    (cb_quiz_answer 100 7 c1wStA c1wQmap [] 5 'b' c1wEnv).st.streak = 0 ∧
    (cb_quiz_answer 100 7 c1wStA c1wQmap [] 5 'b' c1wEnv).coupons =
      [] ++ [⟨generate_unique_coupon_code (([] : List Coupon).map (fun x => x.code)) c1wEnv.draws 100,
              7, c1wEnv.username, c1wEnv.full_name, 100⟩] := by
  have h := c1_streak_award_once_terminal
  exact ⟨h.1 100 c1wSt1 c1wQmap [] rfl,
         h.2.1 100 7 c1wSt1 c1wQmap [] 5 'b' c1wEnv rfl,
         (h.2.2.1 100 7 c1wStA c1wQmap [] 5 'b' c1wEnv rfl (by decide) rfl).1,
         (h.2.2.1 100 7 c1wStA c1wQmap [] 5 'b' c1wEnv rfl (by decide) rfl).2.1,
         (h.2.2.1 100 7 c1wStA c1wQmap [] 5 'b' c1wEnv rfl (by decide) rfl).2.2.1⟩

/-! ## C4 — 24-hour lockout -/

/-- C4: an incorrect answer from a non-awarded user resets the streak to 0 and
sets the lock to exactly `now + 86400` seconds (24 hours), reporting that time;
a start attempt strictly before the lock expires is rejected with the unlock
time and changes nothing; the first attempt at or after the unlock time clears
the lock and presents a question. -/
theorem c4_incorrect_locks_24h :
    (∀ now uid st qmap coupons qid c opt env, st.awarded = 0 → qmap qid = some c →
      opt ≠ c →
      (cb_quiz_answer now uid st qmap coupons qid opt env).st.locked_until =
        some (now + 86400) ∧
      (cb_quiz_answer now uid st qmap coupons qid opt env).st.streak = 0 ∧
      (cb_quiz_answer now uid st qmap coupons qid opt env).res =
        .wrongLocked (now + 86400)) ∧
    (∀ now st qmap picks u, st.awarded = 0 → st.locked_until = some u → now < u →
      start_quiz_for_user now st qmap picks = ⟨st, qmap, .lockedMsg u⟩) ∧
    (∀ now st qmap row rest o1 os u, st.awarded = 0 → st.locked_until = some u →
      u ≤ now → row.options = o1 :: os →
      (start_quiz_for_user now st qmap (row :: rest)).st.locked_until = none ∧
      (start_quiz_for_user now st qmap (row :: rest)).result =
        .asked row.qid (resolveCorrect o1 row.options row.correct_raw)) := by
  refine ⟨?_, ?_, ?_⟩
  · intro now uid st qmap coupons qid c opt env h0 hq ho
    have h1 : ¬ st.awarded = 1 := by omega
    unfold cb_quiz_answer
    rw [hq, if_neg h1]
    simp [ho]
  · intro now st qmap picks u h0 hl hn
    have h1 : ¬ st.awarded = 1 := by omega
    unfold start_quiz_for_user
    rw [if_neg h1, hl]
    simp [hn]
  · intro now st qmap row rest o1 os u h0 hl hn hop
    have h1 : ¬ st.awarded = 1 := by omega
    unfold start_quiz_for_user
    simp only [if_neg h1, hl]
    rw [if_neg (by omega : ¬ now < u)]
    simp [startAsk, hop]

def c4wSt : QuizUser := ⟨7, 1, none, 0, none, 5⟩

def c4wStL : QuizUser := ⟨7, 0, some 86500, 0, none, 0⟩

def c4wRow : QRow := ⟨11, [('a', "да".data), ('b', "нет".data)], "b".data⟩

/-- witness for C4 at concrete inputs -/
theorem c4_incorrect_locks_24h_witness :
    (cb_quiz_answer 100 7 c4wSt c1wQmap [] 5 'a' c1wEnv).st.locked_until =
      some (100 + 86400) ∧
    (cb_quiz_answer 100 7 c4wSt c1wQmap [] 5 'a' c1wEnv).res =
      .wrongLocked (100 + 86400) ∧
    start_quiz_for_user 100 c4wStL c1wQmap [] = ⟨c4wStL, c1wQmap, .lockedMsg 86500⟩ ∧
    (start_quiz_for_user 90000 c4wStL c1wQmap [c4wRow]).st.locked_until = none ∧
    (start_quiz_for_user 90000 c4wStL c1wQmap [c4wRow]).result =
      .asked 11 (resolveCorrect ('a', "да".data) c4wRow.options c4wRow.correct_raw) := by
  have h := c4_incorrect_locks_24h
  exact ⟨(h.1 100 7 c4wSt c1wQmap [] 5 'b' 'a' c1wEnv rfl rfl (by decide)).1,
         (h.1 100 7 c4wSt c1wQmap [] 5 'b' 'a' c1wEnv rfl rfl (by decide)).2.2,
         h.2.1 100 c4wStL c1wQmap [] 86500 rfl rfl (by decide),
         (h.2.2 90000 c4wStL c1wQmap c4wRow [] ('a', "да".data)
            [('b', "нет".data)] 86500 rfl rfl (by decide) rfl).1,
         (h.2.2 90000 c4wStL c1wQmap c4wRow [] ('a', "да".data)
            [('b', "нет".data)] 86500 rfl rfl (by decide) rfl).2⟩

/-! ## C10 — a registered question id is resolved at most once -/

def isStaleRes : AnswerRes → Bool
  | .staleQ _ => true
  | _ => false

def c10St0 : QuizUser := ⟨1, 2, none, 0, none, 9⟩

def c10Qmap0 : Nat → Option Char := fun x => if x = 9 then some 'a' else none

def c10Env : CbEnv := ⟨fun _ => 5, [], [], []⟩

def c10run1 : CbOut := cb_quiz_answer 1000 1 c10St0 c10Qmap0 [] 9 'a' c10Env

def c10run2 : CbOut :=
  cb_quiz_answer 1000 1 c10run1.st c10run1.qmap c10run1.coupons 9 'a' c10Env

/-- C10 counterexample: the award answer for question 9 removes it from the
table, but the second answer to the same id is rejected by the terminal award
check — it does not take the stale-question path the claim asserts for every
second answer. -/
theorem c10_second_answer_cex :
    c10run1.qmap 9 = none ∧ isStaleRes c10run2.res = false ∧
    c10run2.res = .alreadyWon := by
  refine ⟨rfl, rfl, rfl⟩

/-- C10 (amended): an answer callback from a non-awarded user for a registered
question id removes that id from the process-wide table before returning; a
second answer to an already-resolved id from a still-non-awarded user takes the
stale-question path (informing the user and invoking a fresh start attempt) and
leaves `streak` and `awarded` unchanged, with the lock at most cleared by
expiry, never set; a second answer from a user who became awarded is rejected
by the terminal award check with no state change. -/
theorem c10_resolved_at_most_once :
    (∀ now uid st qmap coupons qid c opt env, st.awarded = 0 → qmap qid = some c →
      (cb_quiz_answer now uid st qmap coupons qid opt env).qmap qid = none) ∧
    (∀ now uid st qmap coupons qid opt env, st.awarded = 0 → qmap qid = none →
      (cb_quiz_answer now uid st qmap coupons qid opt env).res =
        .staleQ (start_quiz_for_user now st qmap env.picks).result ∧
      (cb_quiz_answer now uid st qmap coupons qid opt env).st.streak = st.streak ∧
      (cb_quiz_answer now uid st qmap coupons qid opt env).st.awarded = st.awarded ∧
      ((cb_quiz_answer now uid st qmap coupons qid opt env).st.locked_until =
          st.locked_until ∨
        (cb_quiz_answer now uid st qmap coupons qid opt env).st.locked_until = none) ∧
      (cb_quiz_answer now uid st qmap coupons qid opt env).coupons = coupons) ∧
    (∀ now uid st qmap coupons qid opt env, st.awarded = 1 →
      (cb_quiz_answer now uid st qmap coupons qid opt env).st = st ∧
      (cb_quiz_answer now uid st qmap coupons qid opt env).res = .alreadyWon) := by
  refine ⟨?_, ?_, ?_⟩
  · intro now uid st qmap coupons qid c opt env h0 hq
    have h1 : ¬ st.awarded = 1 := by omega
    unfold cb_quiz_answer
    rw [hq, if_neg h1]
    by_cases ho : opt = c
    · subst ho
      by_cases h3 : 3 ≤ st.streak + 1
      · simp [h3, h0, qmapErase]
      · simp [h3, qmapErase]
    · simp [ho, qmapErase]
  · intro now uid st qmap coupons qid opt env h0 hq
    have h1 : ¬ st.awarded = 1 := by omega
    have hf := start_fields now st qmap env.picks
    have hc : cb_quiz_answer now uid st qmap coupons qid opt env =
        ⟨(start_quiz_for_user now st qmap env.picks).st,
         (start_quiz_for_user now st qmap env.picks).qmap, coupons,
         .staleQ (start_quiz_for_user now st qmap env.picks).result⟩ := by
      unfold cb_quiz_answer
      simp only [if_neg h1, hq]
    rw [hc]
    exact ⟨rfl, hf.2.1, hf.1, hf.2.2, rfl⟩
  · intro now uid st qmap coupons qid opt env h
    simp [cb_quiz_answer, h]

def c10wStW : QuizUser := ⟨2, 0, none, 1, none, 0⟩

def c10wStF : QuizUser := ⟨2, 1, some 50, 0, none, 3⟩

/-- witness for the amended C10 at concrete inputs -/
theorem c10_resolved_at_most_once_witness :
    (cb_quiz_answer 1000 1 c10St0 c10Qmap0 [] 9 'c' c10Env).qmap 9 = none ∧
    (cb_quiz_answer 1000 2 c10wStF (fun _ => none) [] 9 'a' c10Env).res =
      .staleQ (start_quiz_for_user 1000 c10wStF (fun _ => none) c10Env.picks).result ∧
    (cb_quiz_answer 1000 2 c10wStF (fun _ => none) [] 9 'a' c10Env).st.streak = 1 ∧
    (cb_quiz_answer 1000 2 c10wStW c10Qmap0 [] 9 'a' c10Env).st = c10wStW ∧
    (cb_quiz_answer 1000 2 c10wStW c10Qmap0 [] 9 'a' c10Env).res = .alreadyWon := by
  have h := c10_resolved_at_most_once
  exact ⟨h.1 1000 1 c10St0 c10Qmap0 [] 9 'a' 'c' c10Env rfl rfl,
         (h.2.1 1000 2 c10wStF (fun _ => none) [] 9 'a' c10Env rfl rfl).1,
         (h.2.1 1000 2 c10wStF (fun _ => none) [] 9 'a' c10Env rfl rfl).2.1,
         (h.2.2 1000 2 c10wStW c10Qmap0 [] 9 'a' c10Env rfl).1,
         (h.2.2 1000 2 c10wStW c10Qmap0 [] 9 'a' c10Env rfl).2⟩

/-! ## C3 — coupon code uniqueness -/

lemma genCodeLoop_none (existing : List Str) (draws : Nat → Nat) :
    ∀ fuel i, (∀ j, j < fuel → padNum 6 (draws (i + j)) ∈ existing) →
      genCodeLoop existing draws i fuel = none := by
  intro fuel
  induction fuel with
  | zero => intro i _; rfl
  | succ n ih =>
    intro i hall
    have h0 : padNum 6 (draws i) ∈ existing := by
      have := hall 0 (by omega)
      simpa using this
    simp only [genCodeLoop, if_pos h0]
    exact ih (i + 1) (fun j hj => by
      have := hall (j + 1) (by omega)
      simpa [Nat.add_assoc, Nat.add_comm 1 j] using this)

lemma genCodeLoop_some_not_mem (existing : List Str) (draws : Nat → Nat) :
    ∀ fuel i code, genCodeLoop existing draws i fuel = some code → code ∉ existing := by
  intro fuel
  induction fuel with
  | zero => intro i code h; exact absurd h (by simp [genCodeLoop])
  | succ n ih =>
    intro i code h
    simp only [genCodeLoop] at h
    split_ifs at h with hm
    · exact ih (i + 1) code h
    · cases h; exact hm

lemma genCodeLoop_finds (existing : List Str) (draws : Nat → Nat) :
    ∀ fuel i, (∃ j, j < fuel ∧ padNum 6 (draws (i + j)) ∉ existing) →
      ∃ code, genCodeLoop existing draws i fuel = some code := by
  intro fuel
  induction fuel with
  | zero =>
    rintro i ⟨j, hj, _⟩
    omega
  | succ n ih =>
    rintro i ⟨j, hj, hfresh⟩
    simp only [genCodeLoop]
    split_ifs with hm
    · apply ih (i + 1)
      rcases Nat.eq_zero_or_pos j with rfl | hjp
      · simp only [Nat.add_zero] at hfresh
        exact absurd hm hfresh
      · refine ⟨j - 1, by omega, ?_⟩
        have hgoal : i + 1 + (j - 1) = i + j := by omega
        rw [hgoal]
        exact hfresh
    · exact ⟨_, rfl⟩

lemma generate_fresh (existing : List Str) (draws : Nat → Nat) (now : Nat)
    (h : ∃ i, i < 10000 ∧ padNum 6 (draws i) ∉ existing) :
    generate_unique_coupon_code existing draws now ∉ existing := by
  obtain ⟨i, hi, hf⟩ := h
  obtain ⟨code, hc⟩ := genCodeLoop_finds existing draws 10000 0
    ⟨i, hi, by simpa using hf⟩
  unfold generate_unique_coupon_code
  rw [hc]
  exact genCodeLoop_some_not_mem existing draws 10000 0 code hc

/-- a sequence of `issue_coupon_to_user` calls with the given draw streams and
wall clocks, starting from the given ledger -/
structure IssueEnv where
  draws : Nat → Nat
  now : Nat

def issueAll (uid : Nat) (username full_name : Str) :
    List IssueEnv → List Coupon → List Coupon
  | [], acc => acc
  | e :: es, acc =>
    issueAll uid username full_name es
      (issue_coupon_to_user acc e.draws e.now uid username full_name).1

/-- every issuance of the run draws, within its 10000 attempts, a code not yet
in the ledger it sees -/
def issuanceOk (uid : Nat) (username full_name : Str) :
    List IssueEnv → List Coupon → Prop
  | [], _ => True
  | e :: es, acc =>
    (∃ i, i < 10000 ∧ padNum 6 (e.draws i) ∉ acc.map (fun c => c.code)) ∧
    issuanceOk uid username full_name es
      (issue_coupon_to_user acc e.draws e.now uid username full_name).1

lemma issueAll_nodup (uid : Nat) (username full_name : Str) :
    ∀ envs acc, ((acc.map (fun c => c.code)).Nodup) →
      issuanceOk uid username full_name envs acc →
      (((issueAll uid username full_name envs acc).map (fun c => c.code)).Nodup) := by
  intro envs
  induction envs with
  | nil => intro acc hnd _; exact hnd
  | cons e es ih =>
    intro acc hnd hok
    obtain ⟨hfresh, hok2⟩ := hok
    refine ih _ ?_ hok2
    have hgen := generate_fresh (acc.map (fun c => c.code)) e.draws e.now hfresh
    simp only [issue_coupon_to_user, List.map_append, List.map_cons, List.map_nil]
    rw [List.nodup_append]
    exact ⟨hnd, List.nodup_singleton _, by simpa using hgen⟩

def c3envBad : List IssueEnv := [⟨fun _ => 0, 0⟩, ⟨fun _ => 0, 0⟩]

/-- C3 counterexample: with an adversarial draw stream (every draw is 0) and a
midnight clock, the second issuance exhausts its 10000 retries and falls back
to the time-derived code `"000000"`, which is already in the ledger — the two
issued codes are equal, so "N issued codes are pairwise distinct for every N"
fails at N = 2. -/
theorem c3_duplicate_codes_cex :
    (issueAll 1 [] [] c3envBad []).map (fun c => c.code) =
      ["000000".data, "000000".data] ∧
    ¬ ((issueAll 1 [] [] c3envBad []).map (fun c => c.code)).Nodup := by
  have hloop : genCodeLoop ["000000".data] (fun _ => 0) 0 10000 = none :=
    genCodeLoop_none _ _ 10000 0 (fun j _ => by decide)
  have hall : issueAll 1 [] [] c3envBad [] =
      [⟨"000000".data, 1, [], [], 0⟩, ⟨"000000".data, 1, [], [], 0⟩] := by
    show issueAll 1 [] [] [⟨fun _ => 0, 0⟩] [⟨"000000".data, 1, [], [], 0⟩] = _
    show (issue_coupon_to_user [⟨"000000".data, 1, [], [], 0⟩] (fun _ => 0) 0 1 [] []).1 = _
    unfold issue_coupon_to_user generate_unique_coupon_code
    rw [show ([⟨"000000".data, 1, [], [], 0⟩] : List Coupon).map (fun c => c.code) =
          ["000000".data] from rfl, hloop]
    rfl
  rw [hall]
  exact ⟨rfl, by decide⟩

/-- C3 (amended): a generated code that is already present in the ledger is
rejected and a new draw is taken, for at most 10000 attempts, after which the
time-derived `%H%M%S` fallback is returned (this degenerate case can collide);
whenever an issuance finds a fresh code within its draws, the stored code is
not already in the ledger, and a run of issuances from the empty ledger in
which every issuance finds a fresh code within its 10000 draws yields pairwise
distinct codes. -/
theorem c3_codes_distinct_amended :
    (∀ existing draws now, (∀ j, j < 10000 → padNum 6 (draws j) ∈ existing) →
      generate_unique_coupon_code existing draws now = formatHMS now) ∧
    (∀ existing draws now, (∃ i, i < 10000 ∧ padNum 6 (draws i) ∉ existing) →
      generate_unique_coupon_code existing draws now ∉ existing) ∧
    (∀ uid username full_name envs, issuanceOk uid username full_name envs [] →
      (((issueAll uid username full_name envs []).map (fun c => c.code)).Nodup)) := by
  refine ⟨?_, generate_fresh, ?_⟩
  · intro existing draws now hall
    unfold generate_unique_coupon_code
    rw [genCodeLoop_none existing draws 10000 0 (fun j hj => by simpa using hall j hj)]
  · intro uid username full_name envs hok
    exact issueAll_nodup uid username full_name envs [] (by simp) hok

/-- witness for the amended C3 at concrete inputs -/
theorem c3_codes_distinct_amended_witness :
    generate_unique_coupon_code ["000000".data] (fun _ => 0) 7322 = formatHMS 7322 ∧
    generate_unique_coupon_code ["000000".data] (fun _ => 1) 0 ∉
      (["000000".data] : List Str) ∧
    (((issueAll 1 [] [] [⟨fun _ => 0, 0⟩, ⟨fun _ => 1, 0⟩] []).map
        (fun c => c.code)).Nodup) := by
  have h := c3_codes_distinct_amended
  exact ⟨h.1 _ _ 7322 (fun j _ => by decide),
         h.2.1 _ _ 0 ⟨0, by omega, by decide⟩,
         h.2.2 1 [] [] _ ⟨⟨0, by omega, by decide⟩, ⟨0, by omega, by decide⟩, trivial⟩⟩

/-! ## C5 — `guestsMin ≤ guestsMax` -/

lemma guestsTail3_le (t : Str) (a b : Nat)
    (h : guestsTail3 t = (some a, some b)) : a ≤ b := by
  unfold guestsTail3 at h
  split at h
  · simp only [Prod.mk.injEq, Option.some.injEq] at h
    omega
  · split at h
    · simp at h
    · split at h
      · simp at h
      · split at h
        · simp only [Prod.mk.injEq, Option.some.injEq] at h
          omega
        · split at h
          · split_ifs at h
            · simp only [Prod.mk.injEq, Option.some.injEq] at h
              omega
            · simp at h
          · simp at h

lemma extract_guests_le (text : Str) (a b : Nat)
    (h : extract_guests_range text = (some a, some b)) : a ≤ b := by
  simp only [extract_guests_range] at h
  split_ifs at h with hemp
  · simp at h
  · split at h
    · simp only [Prod.mk.injEq, Option.some.injEq] at h
      omega
    · split at h
      · split_ifs at h with hc
        · simp only [Prod.mk.injEq, Option.some.injEq] at h
          omega
        · exact guestsTail3_le _ _ _ h
      · exact guestsTail3_le _ _ _ h

def guestsInv (st : Draft) : Prop :=
  ∀ a b, st.guests_min = some a → st.guests_max = some b → a ≤ b

def guestsInvOpt : Option Draft → Prop
  | none => True
  | some d => guestsInv d

def c5now : DateT := ⟨2025, 6, 1⟩

def c5run1 : RouterOut :=
  universal_router c5now [] true 1 "Иван".data "нас пятеро".data none []

def c5run2 : RouterOut :=
  universal_router c5now [] true 1 "Иван".data "до 3".data c5run1.draft c5run1.bookings

set_option maxHeartbeats 4000000 in
/-- C5 counterexample: the turn "нас пятеро" stores `guestsMin = guestsMax = 5`;
the next turn "до 3" extracts `(None, 3)` and the field-by-field merge
overwrites only `guestsMax`, leaving the draft with `guestsMin = 5 >
guestsMax = 3` — the invariant fails across merges. -/
theorem c5_merge_violation_cex :
    c5run1.draft.map (fun d => (d.guests_min, d.guests_max)) =
      some (some 5, some 5) ∧
    c5run2.draft.map (fun d => (d.guests_min, d.guests_max)) =
      some (some 5, some 3) ∧
    ¬ (5 ≤ 3) := by
  exact ⟨by decide, by decide, by decide⟩

/-- C5 (amended): after a single extraction, `guestsMin ≤ guestsMax` holds
whenever both are returned; and the dialogue manager's field-by-field merge
preserves the invariant on every turn whose extraction returns either both
bounds or neither (an upper-bound-only turn such as "до N" can break it). -/
lemma finalize_draft_none_or_self (nowTs : Str) (adminOn : Bool) (uid : Nat)
    (fullName : Str) (st : Draft) (bookings : List Resv) :
    (finalize_booking nowTs adminOn uid fullName st bookings).draft = none ∨
    (finalize_booking nowTs adminOn uid fullName st bookings).draft = some st := by
  simp only [finalize_booking]
  split
  · split
    · exact Or.inr rfl
    · exact Or.inl rfl
  · exact Or.inr rfl

/-- C5 (amended): after a single extraction, `guestsMin ≤ guestsMax` holds
whenever both bounds are returned; and the dialogue manager's field-by-field
merge preserves the invariant on every turn whose extraction returns either
both bounds or neither (an upper-bound-only turn such as "до N" can break it).
-/
theorem c5_guests_min_le_max :
    (∀ text a b, extract_guests_range text = (some a, some b) → a ≤ b) ∧
    (∀ now nowTs adminOn uid fullName text st0 bookings,
      guestsInvOpt st0 →
      ((extract_guests_range text).1 = none ↔ (extract_guests_range text).2 = none) →
      guestsInvOpt
        (universal_router now nowTs adminOn uid fullName text st0 bookings).draft) := by
  refine ⟨extract_guests_le, ?_⟩
  intro now nowTs adminOn uid fullName text st0 bookings hinv hiff
  have hinv1 : guestsInv (st0.getD emptyDraft) := by
    cases st0 with
    | none => intro a b ha hb; simp [Option.getD, emptyDraft] at ha
    | some d => exact hinv
  have hmerge : ∀ d t phone nm deflt,
      guestsInv (mergeBooking (st0.getD emptyDraft) d t (extract_guests_range text)
        phone nm deflt) := by
    intro d t phone nm deflt
    rcases hg : extract_guests_range text with ⟨g1, g2⟩
    rw [hg] at hiff
    cases g1 with
    | none =>
      have hg2 : g2 = none := hiff.mp rfl
      subst hg2
      intro a b ha hb
      exact hinv1 a b (by simpa [mergeBooking] using ha)
        (by simpa [mergeBooking] using hb)
    | some v1 =>
      cases g2 with
      | none => simpa using hiff.mpr rfl
      | some v2 =>
        intro a b ha hb
        have hle : v1 ≤ v2 := extract_guests_le text v1 v2 hg
        simp only [mergeBooking, Option.some.injEq] at ha hb
        omega
  have hfin : ∀ st4 : Draft, guestsInv st4 →
      guestsInvOpt (finalize_booking nowTs adminOn uid fullName st4 bookings).draft := by
    intro st4 h4
    rcases finalize_draft_none_or_self nowTs adminOn uid fullName st4 bookings with hf | hf <;>
      rw [hf]
    · exact trivial
    · exact h4
  simp only [universal_router]
  split
  · generalize hM : mergeBooking (st0.getD emptyDraft) (extract_date text now)
      (extract_time text) (extract_guests_range text) (extract_phone text)
      (match extract_phone text with
       | some _ => extract_name_from_contact_text text (extract_phone text)
       | none => none)
      (if fullName.isEmpty then "Гость".data else fullName) = M
    have hMinv : guestsInv M := hM ▸ hmerge _ _ _ _ _
    split
    · exact hfin M hMinv
    · exact hMinv
  · split
    · exact hinv
    · exact hinv

set_option maxHeartbeats 2000000 in
/-- witness for the amended C5 at concrete inputs -/
theorem c5_guests_min_le_max_witness :
    3 ≤ 5 ∧
    guestsInvOpt
      (universal_router c5now [] true 1 "Иван".data "привет".data none []).draft := by
  have h := c5_guests_min_le_max
  exact ⟨h.1 "3-5".data 3 5 (by decide),
         h.2 c5now [] true 1 "Иван".data "привет".data none [] trivial (by decide)⟩

/-! ## C7 — a draft missing only the phone -/

/-- C7: with an open draft carrying a date, a time and a guest count but no
phone, a message from which no extractor produces anything yields exactly the
single missing category "телефон (и имя)", the router replies with the prompt
(never reaching the finalizer, so the reservations table is unchanged), and the
draft is kept for the next turn with all its fields intact (only the name is
defaulted if absent). -/
theorem c7_missing_phone_only (now : DateT) (nowTs : Str) (adminOn : Bool) (uid : Nat)
    (fullName text : Str) (d : Draft) (bookings : List Resv)
    (hdate : d.date.isSome) (htime : d.time.isSome)
    (hg : d.guests_min.isSome ∨ d.guests_max.isSome) (hph : d.phone = none)
    (hed : extract_date text now = none) (het : extract_time text = none)
    (heg : extract_guests_range text = (none, none))
    (hep : extract_phone text = none) :
    missingOf (mergeBooking d none none (none, none) none none
      (if fullName.isEmpty then "Гость".data else fullName)) =
      ["телефон (и имя)".data] ∧
    (universal_router now nowTs adminOn uid fullName text (some d) bookings).draft =
      some (mergeBooking d none none (none, none) none none
        (if fullName.isEmpty then "Гость".data else fullName)) ∧
    (universal_router now nowTs adminOn uid fullName text (some d) bookings).booking =
      .prompt (knownParts (mergeBooking d none none (none, none) none none
          (if fullName.isEmpty then "Гость".data else fullName)))
        ["телефон (и имя)".data] ∧
    (universal_router now nowTs adminOn uid fullName text (some d) bookings).bookings =
      bookings ∧
    (mergeBooking d none none (none, none) none none
      (if fullName.isEmpty then "Гость".data else fullName)).date = d.date ∧
    (mergeBooking d none none (none, none) none none
      (if fullName.isEmpty then "Гость".data else fullName)).time = d.time ∧
    (mergeBooking d none none (none, none) none none
      (if fullName.isEmpty then "Гость".data else fullName)).guests_min =
      d.guests_min ∧
    (mergeBooking d none none (none, none) none none
      (if fullName.isEmpty then "Гость".data else fullName)).guests_max =
      d.guests_max ∧
    (mergeBooking d none none (none, none) none none
      (if fullName.isEmpty then "Гость".data else fullName)).phone = none := by
  obtain ⟨dd, hdd⟩ := Option.isSome_iff_exists.mp hdate
  obtain ⟨tt, htt⟩ := Option.isSome_iff_exists.mp htime
  have hm : missingOf (mergeBooking d none none (none, none) none none
      (if fullName.isEmpty then "Гость".data else fullName)) =
      ["телефон (и имя)".data] := by
    rcases hg with hgm | hgm <;>
      obtain ⟨gv, hgv⟩ := Option.isSome_iff_exists.mp hgm <;>
      simp [missingOf, mergeBooking, hdd, htt, hph, hgv]
  have hne : (missingOf (mergeBooking d none none (none, none) none none
      (if fullName.isEmpty then "Гость".data else fullName))).isEmpty = false := by
    rw [hm]; rfl
  refine ⟨hm, ?_, ?_, ?_, rfl, rfl, rfl, rfl, by simp [mergeBooking, hph]⟩ <;>
    (simp only [universal_router, hed, het, heg, hep, Option.isSome_some, Option.getD_some,
       eq_self_iff_true, or_true, true_or, if_true, hne, Bool.false_eq_true, if_false] <;>
     rw [hm])

def c7d0 : Draft :=
  ⟨some ⟨2025, 6, 7⟩, some "18:00".data, some 3, some 3, none, some "Иван".data⟩

set_option maxHeartbeats 2000000 in
/-- witness for C7 at concrete inputs -/
theorem c7_missing_phone_only_witness :
    missingOf (mergeBooking c7d0 none none (none, none) none none
      (if ("Иван".data : Str).isEmpty then "Гость".data else "Иван".data)) =
      ["телефон (и имя)".data] ∧
    (universal_router ⟨2025, 6, 1⟩ [] true 1 "Иван".data "привет".data
      (some c7d0) []).draft =
      some (mergeBooking c7d0 none none (none, none) none none
        (if ("Иван".data : Str).isEmpty then "Гость".data else "Иван".data)) ∧
    (universal_router ⟨2025, 6, 1⟩ [] true 1 "Иван".data "привет".data
      (some c7d0) []).bookings = ([] : List Resv) := by
  have h := c7_missing_phone_only ⟨2025, 6, 1⟩ [] true 1 "Иван".data "привет".data c7d0 []
    (by decide) (by decide) (Or.inl (by decide)) rfl (by decide) (by decide) (by decide)
    (by decide)
  exact ⟨h.1, h.2.1, h.2.2.2.1⟩

/-! ## C6 — clearing the draft on finalization -/

/-- `gmax = st.get("guests_max", gmin)` of `finalize_booking` -/
def gmaxOf (st : Draft) : Option Nat :=
  match st.guests_max with
  | some v => some v
  | none => st.guests_min

/-- the truthiness recheck `date_o and time_s and gmax and phone` -/
def finalizeReady (st : Draft) : Prop :=
  st.date.isSome = true ∧ (gmaxOf st).isSome = true ∧ gmaxOf st ≠ some 0 ∧
  (st.time.getD "20:00".data).isEmpty = false ∧
  (trimStr (st.phone.getD [])).isEmpty = false

def c6d0 : Draft :=
  ⟨some ⟨2025, 6, 7⟩, some "18:00".data, none, none, some "+79991234567".data,
   some "Иван".data⟩

def c6run : RouterOut :=
  universal_router ⟨2025, 6, 1⟩ [] true 1 "Иван".data "0-0".data (some c6d0) []

set_option maxHeartbeats 4000000 in
/-- C6 counterexample: a draft holding a date, time and phone receives the
message "0-0"; the numeric-range rule extracts guests `(0, 0)`, the missing set
is empty, the router hands off to the finalizer, the truthiness recheck fails
on `gmax = 0` — and the draft is NOT cleared: it stays in the table with the
zero guest range, while no reservation is persisted. -/
theorem c6_draft_kept_on_abort_cex :
    c6run.booking = BookReply.finalPrompt ∧
    c6run.draft =
      some ⟨some ⟨2025, 6, 7⟩, some "18:00".data, some 0, some 0,
            some "+79991234567".data, some "Иван".data⟩ ∧
    c6run.bookings = ([] : List Resv) := by
  exact ⟨by decide, by decide, by decide⟩

/-- C6 (amended): when the dialogue manager finds no missing fields and hands
the draft to the finalizer, the draft is cleared only when the defensive
truthiness recheck passes (a reservation row is then appended); when the
recheck fails the finalizer replies with the error prompt and the draft is
kept, so the caller can resupply — an exhausted draft with a zero guest count
does remain in the table. -/
theorem c6_finalize_clears_only_on_success :
    (∀ nowTs adminOn uid fullName st bookings, finalizeReady st →
      (finalize_booking nowTs adminOn uid fullName st bookings).draft = none ∧
      ∃ row, (finalize_booking nowTs adminOn uid fullName st bookings).bookings =
          bookings ++ [row] ∧
        (finalize_booking nowTs adminOn uid fullName st bookings).reply =
          .recorded row) ∧
    (∀ nowTs adminOn uid fullName st bookings, ¬ finalizeReady st →
      (finalize_booking nowTs adminOn uid fullName st bookings).draft = some st ∧
      (finalize_booking nowTs adminOn uid fullName st bookings).bookings = bookings ∧
      (finalize_booking nowTs adminOn uid fullName st bookings).reply =
        .finalPrompt) := by
  constructor
  · intro nowTs adminOn uid fullName st bookings hready
    obtain ⟨hd, hg, hg0, ht, hp⟩ := hready
    simp only [finalize_booking]
    split
    · rename_i dO gM hdO hgM
      rw [show (match st.guests_max with
                | some v => some v
                | none => st.guests_min) = gmaxOf st from rfl] at hgM
      have hgM0 : gM ≠ 0 := by
        intro h
        exact hg0 (h ▸ hgM)
      have hcond : ¬(List.isEmpty (st.time.getD "20:00".data) = true ∨ gM = 0 ∨
          List.isEmpty (trimStr (st.phone.getD [])) = true) := by
        rw [ht, hp]
        simp [hgM0]
      rw [if_neg hcond]
      exact ⟨rfl, _, rfl, rfl⟩
    · rename_i h2
      obtain ⟨dO, hdO⟩ := Option.isSome_iff_exists.mp hd
      obtain ⟨gM, hgM⟩ := Option.isSome_iff_exists.mp hg
      rw [show gmaxOf st = (match st.guests_max with
                            | some v => some v
                            | none => st.guests_min) from rfl] at hgM
      exact absurd hgM (by simpa using h2 dO gM hdO)
  · intro nowTs adminOn uid fullName st bookings hnot
    simp only [finalize_booking]
    split
    · rename_i dO gM hdO hgM
      rw [if_pos]
      · exact ⟨rfl, rfl, rfl⟩
      · by_contra hc
        push_neg at hc
        exact hnot ⟨by simp [hdO], by
            rw [show (match st.guests_max with
                      | some v => some v
                      | none => st.guests_min) = gmaxOf st from rfl] at hgM
            simp [hgM],
          by
            rw [show (match st.guests_max with
                      | some v => some v
                      | none => st.guests_min) = gmaxOf st from rfl] at hgM
            rw [hgM]
            simp [hc.2.1],
          by simp [hc.1], by simp [hc.2.2]⟩
    · rename_i hfail
      refine ⟨rfl, rfl, rfl⟩

def c6good : Draft :=
  ⟨some ⟨2025, 6, 7⟩, some "18:00".data, some 2, some 4, some "+79991234567".data,
   some "Иван".data⟩

def c6bad : Draft :=
  ⟨some ⟨2025, 6, 7⟩, some "18:00".data, some 0, some 0, some "+79991234567".data,
   some "Иван".data⟩

/-- witness for the amended C6 at concrete inputs -/
theorem c6_finalize_clears_only_on_success_witness :
    (finalize_booking [] true 1 "Иван".data c6good []).draft = none ∧
    (∃ row, (finalize_booking [] true 1 "Иван".data c6good []).bookings =
        [] ++ [row] ∧
      (finalize_booking [] true 1 "Иван".data c6good []).reply = .recorded row) ∧
    (finalize_booking [] true 1 "Иван".data c6bad []).draft = some c6bad ∧
    (finalize_booking [] true 1 "Иван".data c6bad []).reply = .finalPrompt := by
  have h := c6_finalize_clears_only_on_success
  have hready : finalizeReady c6good := ⟨rfl, rfl, by decide, rfl, rfl⟩
  have hnot : ¬ finalizeReady c6bad := fun hr => hr.2.2.1 rfl
  exact ⟨(h.1 [] true 1 "Иван".data c6good [] hready).1,
         (h.1 [] true 1 "Иван".data c6good [] hready).2,
         (h.2 [] true 1 "Иван".data c6bad [] hnot).1,
         (h.2 [] true 1 "Иван".data c6bad [] hnot).2.2⟩

/-! ## C2 — the end-to-end booking message -/

def c2msg : Str := "завтра к 19, нас 4, +79991234567 Алексей".data

def c2run : RouterOut :=
  universal_router ⟨2025, 6, 1⟩ "ts".data true 1 "Иван".data c2msg none []

set_option maxHeartbeats 8000000 in
/-- C2 counterexample: on the scenario message the bare-number guest rule
matches the hour "19" (leftmost match, before "нас 4" is reached), and the
name extractor keeps every alphabetic token of the message, so the persisted
reservation carries guest range "19" and name "завтра к нас Алексей" — not the
claimed `(4,4)` and "Алексей". -/
theorem c2_scenario_cex :
    extract_guests_range c2msg = (some 19, some 19) ∧
    ((some 19, some 19) : Option Nat × Option Nat) ≠ (some 4, some 4) ∧
    extract_name_from_contact_text c2msg (some "+79991234567".data) =
      some "завтра к нас Алексей".data ∧
    (some "завтра к нас Алексей".data : Option Str) ≠ some "Алексей".data ∧
    c2run.bookings.map (fun r => (r.guests_range, r.name)) =
      [("19".data, "завтра к нас Алексей".data)] := by
  exact ⟨by decide, by decide, by decide, by decide, by decide⟩

set_option maxHeartbeats 8000000 in
/-- C2 (amended): from a fresh user with no open draft, the scenario message
completes the booking in a single turn — date = tomorrow, time = "19:00",
phone = "+79991234567" — but with guest range `(19,19)` (the bare-number rule
matches the hour first) and name "завтра к нас Алексей" (all alphabetic
tokens); a reservation with `status=new` is persisted, the draft is cleared,
and the operator notification carries the approve/reject actions. -/
theorem c2_single_turn_booking (now : DateT) (nowTs : Str) (fullName : Str)
    (uid : Nat) (bookings : List Resv) :
    (universal_router now nowTs true uid fullName c2msg none bookings).draft =
      none ∧
    ∃ row,
      (universal_router now nowTs true uid fullName c2msg none bookings).bookings =
        bookings ++ [row] ∧
      (universal_router now nowTs true uid fullName c2msg none bookings).booking =
        .recorded row ∧
      (universal_router now nowTs true uid fullName c2msg none bookings).admin =
        some ⟨row.id, "admin:confirm:".data ++ natStr row.id,
              "admin:cancel:".data ++ natStr row.id⟩ ∧
      row.id = next_booking_id bookings ∧
      row.status = "new".data ∧
      row.date = isoDate (nextDay now) ∧
      row.time = "19:00".data ∧
      row.guests = 19 ∧
      row.guests_range = "19".data ∧
      row.phone = "+79991234567".data ∧
      row.name = "завтра к нас Алексей".data := by
  have hph : extract_phone c2msg = some "+79991234567".data := by decide
  have hnm : extract_name_from_contact_text c2msg (some "+79991234567".data) =
      some "завтра к нас Алексей".data := by decide
  have het : extract_time c2msg = some "19:00".data := by decide
  have heg : extract_guests_range c2msg = (some 19, some 19) := by decide
  have hed : extract_date c2msg now = some (nextDay now) := by
    have h1 : searchNumDate (normalize_text c2msg) = none := by decide
    have h2 : containsSub ("сегодня".data) (normalize_text c2msg) = false := by decide
    have h3 : containsSub ("завтра".data) (normalize_text c2msg) = true := by decide
    simp only [extract_date, extract_date_rest, h1, h2, h3, if_true, if_false,
      Bool.false_eq_true]
  simp only [universal_router]
  rw [hed, het, heg, hph, hnm]
  exact ⟨rfl, _, rfl, rfl, rfl, rfl, rfl, rfl, rfl, rfl, rfl, rfl, rfl⟩

/-! ## C8 / C9 — groundwork: digit characters and pure numeric inputs -/

def digitChar (k : Nat) : Char := Char.ofNat (48 + k)

/-- the canonical two-digit rendering `DD` of a number below 100 -/
def render2 (n : Nat) : Str := [digitChar (n / 10), digitChar (n % 10)]

/-- the input "DD.MM" -/
def numInput2 (d m : Nat) : Str := render2 d ++ '.' :: render2 m

/-- the input "DD.MM.YY" -/
def numInput3 (d m yy : Nat) : Str :=
  render2 d ++ '.' :: render2 m ++ '.' :: render2 yy

lemma digitChar_isDigit : ∀ k < 10, (digitChar k).isDigit = true := by decide

lemma digitChar_isWord : ∀ k < 10, isWordChar (digitChar k) = true := by decide

lemma digitChar_val : ∀ k < 10, digitVal (digitChar k) = k := by decide

lemma digitChar_ruLower : ∀ k < 10, ruLower (digitChar k) = digitChar k := by decide

lemma digitChar_notSpa : ∀ k < 10, isSpa (digitChar k) = false := by decide

lemma digitChar_ascii : ∀ k < 10, (digitChar k).toNat < 128 := by decide

/-- a character of a pure numeric token: a decimal digit or a dot -/
def DigitDot (c : Char) : Prop := c.isDigit = true ∨ c = '.'

lemma render2_digitDot (n : Nat) (hn : n < 100) : ∀ c ∈ render2 n, DigitDot c := by
  intro c hc
  simp only [render2, List.mem_cons, List.not_mem_nil, or_false] at hc
  rcases hc with rfl | rfl
  · exact Or.inl (digitChar_isDigit _ (by omega))
  · exact Or.inl (digitChar_isDigit _ (Nat.mod_lt _ (by omega)))

lemma numInput2_digitDot (d m : Nat) (hd : d < 100) (hm : m < 100) :
    ∀ c ∈ numInput2 d m, DigitDot c := by
  intro c hc
  simp only [numInput2, List.mem_append, List.mem_cons] at hc
  rcases hc with h | rfl | h
  · exact render2_digitDot d hd c h
  · exact Or.inr rfl
  · exact render2_digitDot m hm c h

lemma numInput3_digitDot (d m yy : Nat) (hd : d < 100) (hm : m < 100)
    (hy : yy < 100) : ∀ c ∈ numInput3 d m yy, DigitDot c := by
  intro c hc
  simp only [numInput3] at hc
  rcases List.mem_append.mp hc with h | h
  · exact numInput2_digitDot d m hd hm c h
  · rcases List.mem_cons.mp h with rfl | h
    · exact Or.inr rfl
    · exact render2_digitDot yy hy c h

lemma digitDot_ruLower {c : Char} (h : DigitDot c) : ruLower c = c := by
  rcases h with h | rfl
  · have h48 : 48 ≤ c.toNat ∧ c.toNat ≤ 57 := by
      simpa [Char.isDigit, decide_eq_true_eq] using h
    simp only [ruLower]
    rw [if_neg (by omega), if_neg (by omega), if_neg (by omega)]
  · rfl

lemma digitDot_notSpa {c : Char} (h : DigitDot c) : isSpa c = false := by
  rcases h with h | rfl
  · have h48 : 48 ≤ c.toNat ∧ c.toNat ≤ 57 := by
      simpa [Char.isDigit, decide_eq_true_eq] using h
    simp only [isSpa, decide_eq_false_iff_not]
    intro hc
    rcases hc with rfl | rfl | rfl | rfl <;> simp at h48
  · rfl

lemma digitDot_ascii {c : Char} (h : DigitDot c) : c.toNat < 128 := by
  rcases h with h | rfl
  · have h48 : 48 ≤ c.toNat ∧ c.toNat ≤ 57 := by
      simpa [Char.isDigit, decide_eq_true_eq] using h
    omega
  · decide

lemma dropWhile_id (p : Char → Bool) (cs : Str) (h : ∀ c ∈ cs, p c = false) :
    cs.dropWhile p = cs := by
  cases cs with
  | nil => rfl
  | cons c rest => simp [List.dropWhile_cons, h c (List.mem_cons_self c rest)]

lemma trimStr_id (cs : Str) (h : ∀ c ∈ cs, isSpa c = false) : trimStr cs = cs := by
  unfold trimStr
  rw [dropWhile_id isSpa cs h,
    dropWhile_id isSpa cs.reverse (fun c hc => h c (List.mem_reverse.mp hc)),
    List.reverse_reverse]

lemma normalize_digitDot (cs : Str) (h : ∀ c ∈ cs, DigitDot c) :
    normalize_text cs = cs := by
  unfold normalize_text
  rw [List.map_congr_left (fun c hc => digitDot_ruLower (h c hc)), List.map_id',
    trimStr_id cs (fun c hc => digitDot_notSpa (h c hc))]

lemma firstSome_none {α β : Type} (l : List α) (f : α → Option β)
    (h : ∀ a ∈ l, f a = none) : firstSome l f = none := by
  induction l with
  | nil => rfl
  | cons a as ih =>
    simp only [firstSome, h a (List.mem_cons_self a as)]
    exact ih (fun x hx => h x (List.mem_cons_of_mem a hx))

lemma scanFrom_none {β : Type} (matchAt : Option Char → Str → Option β)
    (P : Char → Prop) (hmatch : ∀ prev cs, (∀ c ∈ cs, P c) → matchAt prev cs = none) :
    ∀ (cs : Str) (prev : Option Char), (∀ c ∈ cs, P c) →
      scanFrom matchAt prev cs = none := by
  intro cs
  induction cs with
  | nil =>
    intro prev h
    simp [scanFrom, hmatch prev [] (by simp)]
  | cons c rest ih =>
    intro prev h
    simp only [scanFrom]
    rw [hmatch prev (c :: rest) h]
    exact ih (some c) (fun x hx => h x (List.mem_cons_of_mem c hx))

lemma startsWithL_cyr_false (p0 : Char) (ps : Str) (hp : 0x400 ≤ p0.toNat)
    (text : Str) (ht : ∀ c ∈ text, c.toNat < 128) :
    startsWithL (p0 :: ps) text = false := by
  cases text with
  | nil => rfl
  | cons c rest =>
    have hne : ¬ (p0 = c) := by
      intro hEq
      have hc := ht c (List.mem_cons_self c rest)
      rw [← hEq] at hc
      omega
    simp [startsWithL, hne]

lemma containsSub_cyr_false (p0 : Char) (ps : Str) (hp : 0x400 ≤ p0.toNat) :
    ∀ (text : Str), (∀ c ∈ text, c.toNat < 128) →
      containsSub (p0 :: ps) text = false := by
  intro text
  induction text with
  | nil => intro _; rfl
  | cons c rest ih =>
    intro ht
    simp only [containsSub]
    rw [startsWithL_cyr_false p0 ps hp (c :: rest) ht,
      ih (fun x hx => ht x (List.mem_cons_of_mem c hx))]
    rfl

lemma litTake_cyr_none (p0 : Char) (ps : Str) (hp : 0x400 ≤ p0.toNat)
    (cs : Str) (hcs : ∀ c ∈ cs, c.toNat < 128) : litTake (p0 :: ps) cs = none := by
  cases cs with
  | nil => rfl
  | cons c rest =>
    have hne : ¬ (p0 = c) := by
      intro hEq
      have hc := hcs c (List.mem_cons_self c rest)
      rw [← hEq] at hc
      omega
    simp [litTake, hne]

lemma searchWordStart_cyr_false (p0 : Char) (ps : Str) (hp : 0x400 ≤ p0.toNat) :
    ∀ (text : Str) (prev : Option Char), (∀ c ∈ text, c.toNat < 128) →
      searchWordStart (p0 :: ps) prev text = false := by
  intro text
  induction text with
  | nil =>
    intro prev _
    simp [searchWordStart, startsWithL]
  | cons c rest ih =>
    intro prev ht
    simp only [searchWordStart]
    rw [startsWithL_cyr_false p0 ps hp (c :: rest) ht,
      ih (some c) (fun x hx => ht x (List.mem_cons_of_mem c hx))]
    simp

lemma searchWeekday_ascii_none (t : Str) (ht : ∀ c ∈ t, c.toNat < 128) :
    searchWeekday t = none := by
  have h1 : searchWordStart ("понедельник".data.dropLast) none t = false := by
    rw [show ("понедельник".data.dropLast) = 'п' :: "онедельни".data from rfl]
    exact searchWordStart_cyr_false 'п' _ (by decide) t none ht
  have h2 : searchWordStart ("вторник".data.dropLast) none t = false := by
    rw [show ("вторник".data.dropLast) = 'в' :: "торни".data from rfl]
    exact searchWordStart_cyr_false 'в' _ (by decide) t none ht
  have h3 : searchWordStart ("среда".data.dropLast) none t = false := by
    rw [show ("среда".data.dropLast) = 'с' :: "ред".data from rfl]
    exact searchWordStart_cyr_false 'с' _ (by decide) t none ht
  have h4 : searchWordStart ("четверг".data.dropLast) none t = false := by
    rw [show ("четверг".data.dropLast) = 'ч' :: "етвер".data from rfl]
    exact searchWordStart_cyr_false 'ч' _ (by decide) t none ht
  have h5 : searchWordStart ("пятница".data.dropLast) none t = false := by
    rw [show ("пятница".data.dropLast) = 'п' :: "ятниц".data from rfl]
    exact searchWordStart_cyr_false 'п' _ (by decide) t none ht
  have h6 : searchWordStart ("суббота".data.dropLast) none t = false := by
    rw [show ("суббота".data.dropLast) = 'с' :: "уббот".data from rfl]
    exact searchWordStart_cyr_false 'с' _ (by decide) t none ht
  have h7 : searchWordStart ("воскресенье".data.dropLast) none t = false := by
    rw [show ("воскресенье".data.dropLast) = 'в' :: "оскресень".data from rfl]
    exact searchWordStart_cyr_false 'в' _ (by decide) t none ht
  simp only [searchWeekday, WEEKDAY_FULL, firstSome, h1, h2, h3, h4, h5, h6, h7,
    Bool.false_eq_true, if_false]

lemma takeDigits12_rest_subset (cs : Str) :
    ∀ dp ∈ takeDigits12 cs, ∀ c ∈ dp.2, c ∈ cs := by
  cases cs with
  | nil => intro dp hdp; simp [takeDigits12] at hdp
  | cons c1 cs1 =>
    cases cs1 with
    | nil =>
      intro dp hdp c hc
      simp only [takeDigits12] at hdp
      split_ifs at hdp
      · simp only [List.mem_cons, List.not_mem_nil, or_false] at hdp
        subst hdp
        simp at hc
      · simp at hdp
    | cons c2 cs2 =>
      intro dp hdp c hc
      simp only [takeDigits12] at hdp
      split_ifs at hdp
      · rcases List.mem_cons.mp hdp with rfl | h
        · exact List.mem_cons_of_mem c1 (List.mem_cons_of_mem c2 hc)
        · rcases List.mem_cons.mp h with rfl | h
          · exact List.mem_cons_of_mem c1 hc
          · simp at h
      · rcases List.mem_cons.mp hdp with rfl | h
        · exact List.mem_cons_of_mem c1 hc
        · simp at h
      · simp at hdp

lemma goTailOk_digitDot (cs : Str) (h : ∀ c ∈ cs, DigitDot c) : goTailOk cs = false := by
  cases cs with
  | nil => rfl
  | cons c0 rest =>
    have hascii : ∀ c ∈ (c0 :: rest), c.toNat < 128 :=
      fun c hc => digitDot_ascii (h c hc)
    have hdw : (c0 :: rest).dropWhile isSpa = c0 :: rest :=
      dropWhile_id isSpa _ (fun c hc => digitDot_notSpa (h c hc))
    have hlit1 : litTake ("го".data) (c0 :: rest) = none := by
      rw [show ("го".data) = 'г' :: "о".data from rfl]
      exact litTake_cyr_none 'г' _ (by decide) _ hascii
    have hlit2 : litTake ("ого".data) (c0 :: rest) = none := by
      rw [show ("ого".data) = 'о' :: "го".data from rfl]
      exact litTake_cyr_none 'о' _ (by decide) _ hascii
    have hrascii : ∀ c ∈ rest, c.toNat < 128 :=
      fun c hc => hascii c (List.mem_cons_of_mem c0 hc)
    have hlit1r : litTake ("го".data) rest = none := by
      rw [show ("го".data) = 'г' :: "о".data from rfl]
      exact litTake_cyr_none 'г' _ (by decide) _ hrascii
    have hlit2r : litTake ("ого".data) rest = none := by
      rw [show ("ого".data) = 'о' :: "го".data from rfl]
      exact litTake_cyr_none 'о' _ (by decide) _ hrascii
    have hne : ¬ (c0 = '-') := by
      rcases h c0 (List.mem_cons_self c0 rest) with hdg | hdot
      · intro he; rw [he] at hdg; exact absurd hdg (by decide)
      · intro he; rw [hdot] at he; exact absurd he (by decide)
    simp [goTailOk, hdw, hlit1, hlit2, hlit1r, hlit2r, hne]

lemma matchGoAt_digitDot (prev : Option Char) (cs : Str) (h : ∀ c ∈ cs, DigitDot c) :
    matchGoAt prev cs = none := by
  unfold matchGoAt
  split
  · refine firstSome_none _ _ (fun dp hdp => ?_)
    rw [goTailOk_digitDot dp.2 (fun c hc => h c (takeDigits12_rest_subset cs dp hdp c hc))]
    rfl
  · rfl

lemma matchChislaAt_digitDot (prev : Option Char) (cs : Str)
    (h : ∀ c ∈ cs, DigitDot c) : matchChislaAt prev cs = none := by
  unfold matchChislaAt
  split
  · refine firstSome_none _ _ (fun dp hdp => ?_)
    have hdp2 : ∀ c ∈ dp.2, DigitDot c :=
      fun c hc => h c (takeDigits12_rest_subset cs dp hdp c hc)
    have hdw : dp.2.dropWhile isSpa = dp.2 :=
      dropWhile_id isSpa _ (fun c hc => digitDot_notSpa (hdp2 c hc))
    have hl : litTake ("числа".data) (dp.2.dropWhile isSpa) = none := by
      rw [hdw, show ("числа".data) = 'ч' :: "исла".data from rfl]
      exact litTake_cyr_none 'ч' _ (by decide) dp.2
        (fun c hc => digitDot_ascii (hdp2 c hc))
    rw [hl]
  · rfl

lemma extract_date_rest_digitDot (t : Str) (now : DateT)
    (h : ∀ c ∈ t, DigitDot c) : extract_date_rest t now = none := by
  have hascii : ∀ c ∈ t, c.toNat < 128 := fun c hc => digitDot_ascii (h c hc)
  have h1 : containsSub ("сегодня".data) t = false := by
    rw [show ("сегодня".data) = 'с' :: "егодня".data from rfl]
    exact containsSub_cyr_false 'с' _ (by decide) t hascii
  have h2 : containsSub ("завтра".data) t = false := by
    rw [show ("завтра".data) = 'з' :: "автра".data from rfl]
    exact containsSub_cyr_false 'з' _ (by decide) t hascii
  have h3 : containsSub ("послезавтра".data) t = false := by
    rw [show ("послезавтра".data) = 'п' :: "ослезавтра".data from rfl]
    exact containsSub_cyr_false 'п' _ (by decide) t hascii
  have h4 : containsSub ("после завтра".data) t = false := by
    rw [show ("после завтра".data) = 'п' :: "осле завтра".data from rfl]
    exact containsSub_cyr_false 'п' _ (by decide) t hascii
  have h5 : searchWeekday t = none := searchWeekday_ascii_none t hascii
  have h6 : scanFrom matchGoAt none t = none :=
    scanFrom_none matchGoAt DigitDot matchGoAt_digitDot t none h
  have h7 : scanFrom matchChislaAt none t = none :=
    scanFrom_none matchChislaAt DigitDot matchChislaAt_digitDot t none h
  simp [extract_date_rest, h1, h2, h3, h4, h5, h6, h7]

lemma scanFrom_head {β : Type} (matchAt : Option Char → Str → Option β)
    (prev : Option Char) (cs : Str) (r : β) (h : matchAt prev cs = some r) :
    scanFrom matchAt prev cs = some r := by
  cases cs with
  | nil => simpa [scanFrom] using h
  | cons c rest => simp [scanFrom, h]

lemma takeDigits12_render2 (n : Nat) (hn : n < 100) (rest : Str) :
    takeDigits12 (render2 n ++ rest) =
      [(n, rest), (n / 10, digitChar (n % 10) :: rest)] := by
  have h1 : n / 10 < 10 := by omega
  have h2 : n % 10 < 10 := by omega
  simp [render2, takeDigits12, digitChar_isDigit _ h1, digitChar_isDigit _ h2,
    digitChar_val _ h1, digitChar_val _ h2]
  omega

lemma takeDigits24_render2 (yy : Nat) (hy : yy < 100) :
    takeDigits24 (render2 yy) = [(yy, [])] := by
  have h1 : yy / 10 < 10 := by omega
  have h2 : yy % 10 < 10 := by omega
  simp [takeDigits24, render2, takeDigitsExact, parseDigits,
    digitChar_isDigit _ h1, digitChar_isDigit _ h2,
    digitChar_val _ h1, digitChar_val _ h2, List.filterMap]
  omega

lemma matchNumDateAt_input3 (d m yy : Nat) (hd : d < 100) (hm : m < 100)
    (hy : yy < 100) :
    matchNumDateAt none (numInput3 d m yy) = some (d, m, some yy) := by
  have hshape : numInput3 d m yy =
      render2 d ++ '.' :: (render2 m ++ '.' :: render2 yy) := by
    simp [numInput3, List.append_assoc]
  rw [hshape]
  simp [matchNumDateAt, noWordBefore, takeDigits12_render2 d hd,
    takeDigits12_render2 m hm, takeDigits24_render2 yy hy, firstSome, noWordAt]

lemma takeDigits12_render2_nil (n : Nat) (hn : n < 100) :
    takeDigits12 (render2 n) = [(n, []), (n / 10, [digitChar (n % 10)])] := by
  have h := takeDigits12_render2 n hn []
  simpa using h

lemma matchNumDateAt_input2 (d m : Nat) (hd : d < 100) (hm : m < 100) :
    matchNumDateAt none (numInput2 d m) = some (d, m, none) := by
  simp [numInput2, matchNumDateAt, noWordBefore, takeDigits12_render2 d hd,
    takeDigits12_render2_nil m hm, firstSome, noWordAt]

lemma searchNumDate_input3 (d m yy : Nat) (hd : d < 100) (hm : m < 100)
    (hy : yy < 100) :
    searchNumDate (numInput3 d m yy) = some (d, m, some yy) :=
  scanFrom_head _ _ _ _ (matchNumDateAt_input3 d m yy hd hm hy)

lemma searchNumDate_input2 (d m : Nat) (hd : d < 100) (hm : m < 100) :
    searchNumDate (numInput2 d m) = some (d, m, none) :=
  scanFrom_head _ _ _ _ (matchNumDateAt_input2 d m hd hm)

/-- C9: on a canonical two-digit numeric date input, `extract_date` normalizes a
two-digit year `YY` to `2000 + YY` and returns `some ⟨2000+YY, M, D⟩` when that
is a valid calendar date; when the named date is invalid (e.g. 31.02) — with the
year taken from `now` if absent — every later pattern also fails on the purely
numeric text and the extractor returns `none`. -/
theorem c9_numeric_date_year_normalization :
    (∀ (d m yy : Nat) (now : DateT), d < 100 → m < 100 → yy < 100 →
        ValidDate ⟨yy + 2000, m, d⟩ →
        extract_date (numInput3 d m yy) now = some ⟨yy + 2000, m, d⟩) ∧
    (∀ (d m yy : Nat) (now : DateT), d < 100 → m < 100 → yy < 100 →
        ¬ ValidDate ⟨yy + 2000, m, d⟩ →
        extract_date (numInput3 d m yy) now = none) ∧
    (∀ (d m : Nat) (now : DateT), d < 100 → m < 100 →
        ¬ ValidDate ⟨now.y, m, d⟩ →
        extract_date (numInput2 d m) now = none) := by
  refine ⟨?_, ?_, ?_⟩
  · intro d m yy now hd hm hy hv
    have hdd := numInput3_digitDot d m yy hd hm hy
    have hnorm := normalize_digitDot _ hdd
    simp only [extract_date]
    rw [hnorm, searchNumDate_input3 d m yy hd hm hy]
    simp [safeDate, hy, hv]
  · intro d m yy now hd hm hy hnv
    have hdd := numInput3_digitDot d m yy hd hm hy
    have hnorm := normalize_digitDot _ hdd
    simp only [extract_date]
    rw [hnorm, searchNumDate_input3 d m yy hd hm hy]
    have hsd : safeDate (yy + 2000) m d = none := by simp [safeDate, hnv]
    simp [hy, hsd, extract_date_rest_digitDot _ now hdd]
  · intro d m now hd hm hnv
    have hdd := numInput2_digitDot d m hd hm
    have hnorm := normalize_digitDot _ hdd
    simp only [extract_date]
    rw [hnorm, searchNumDate_input2 d m hd hm]
    have hsd : safeDate now.y m d = none := by simp [safeDate, hnv]
    simp [hsd, extract_date_rest_digitDot _ now hdd]

theorem c9_numeric_date_year_normalization_witness :
    extract_date ("05.03.26".data) ⟨2026, 3, 15⟩ = some ⟨2026, 3, 5⟩ ∧
    extract_date ("31.02.26".data) ⟨2026, 3, 15⟩ = none ∧
    extract_date ("31.02".data) ⟨2026, 3, 15⟩ = none := by
  refine ⟨?_, ?_, ?_⟩
  · have h := c9_numeric_date_year_normalization.1 5 3 26 ⟨2026, 3, 15⟩
      (by decide) (by decide) (by decide) (by decide)
    rw [show ("05.03.26".data) = numInput3 5 3 26 from by decide]
    exact h
  · have h := c9_numeric_date_year_normalization.2.1 31 2 26 ⟨2026, 3, 15⟩
      (by decide) (by decide) (by decide) (by decide)
    rw [show ("31.02.26".data) = numInput3 31 2 26 from by decide]
    exact h
  · have h := c9_numeric_date_year_normalization.2.2 31 2 ⟨2026, 3, 15⟩
      (by decide) (by decide) (by decide)
    rw [show ("31.02".data) = numInput2 31 2 from by decide]
    exact h

lemma firstSome_mem {α β : Type} (l : List α) (f : α → Option β) (b : β)
    (h : firstSome l f = some b) : ∃ a ∈ l, f a = some b := by
  induction l with
  | nil => simp [firstSome] at h
  | cons a as ih =>
    simp only [firstSome] at h
    cases hfa : f a with
    | some v =>
      simp only [hfa] at h
      exact ⟨a, List.mem_cons_self a as, by rw [hfa, h]⟩
    | none =>
      simp only [hfa] at h
      obtain ⟨x, hx, hfx⟩ := ih h
      exact ⟨x, List.mem_cons_of_mem a hx, hfx⟩

lemma searchWeekday_lt (t : Str) (idx : Nat) (h : searchWeekday t = some idx) :
    idx < 7 := by
  obtain ⟨w, hwmem, hfw⟩ := firstSome_mem _ _ _ h
  have h7 : ∀ w ∈ WEEKDAY_FULL, w.2 < 7 := by decide
  split_ifs at hfw
  have := Option.some.inj hfw
  rw [← this]
  exact h7 w hwmem

lemma pyShift_spec : ∀ idx < 7, ∀ wd < 7,
    1 ≤ pyShift idx wd ∧ pyShift idx wd ≤ 7 ∧
    (wd + pyShift idx wd) % 7 = idx ∧
    (∀ k < pyShift idx wd, 1 ≤ k → (wd + k) % 7 ≠ idx) ∧
    (wd = idx → pyShift idx wd = 7) := by decide

lemma weekdayOf_addDays (k : Nat) (D : DateT) (hv : ValidDate D)
    (hk : D.y + k ≤ 9999) :
    weekdayOf (addDays k D) = (weekdayOf D + k) % 7 := by
  obtain ⟨_, _, ho⟩ := addDays_spec k D hv hk
  unfold weekdayOf
  rw [ho]
  omega

/-- C8: when the numeric-date pattern and the relative-keyword branches of
`extract_date` do not fire and the weekday loop matches index `idx`, the
extractor returns `today` advanced by `s = (idx - today.weekday()) % 7 or 7`
days: `1 ≤ s ≤ 7`, the result is strictly after `today` (never `today`
itself), it falls on weekday `idx` and is the first strictly-future day that
does, and when `today` already is that weekday the shift is the full 7 days. -/
theorem c8_weekday_strictly_future (text : Str) (now : DateT) (idx : Nat)
    (hv : ValidDate now) (hy : now.y + 7 ≤ 9999)
    (hnum : searchNumDate (normalize_text text) = none)
    (h1 : containsSub ("сегодня".data) (normalize_text text) = false)
    (h2 : containsSub ("завтра".data) (normalize_text text) = false)
    (h3 : containsSub ("послезавтра".data) (normalize_text text) = false)
    (h4 : containsSub ("после завтра".data) (normalize_text text) = false)
    (hw : searchWeekday (normalize_text text) = some idx) :
    ∃ s, extract_date text now = some (addDays s now) ∧
      1 ≤ s ∧ s ≤ 7 ∧
      dlt now (addDays s now) ∧
      weekdayOf (addDays s now) = idx ∧
      (∀ k, 1 ≤ k → k < s → weekdayOf (addDays k now) ≠ idx) ∧
      (weekdayOf now = idx → s = 7) := by
  have hidx : idx < 7 := searchWeekday_lt _ _ hw
  have hwd : weekdayOf now < 7 := Nat.mod_lt _ (by omega)
  obtain ⟨hs1, hs7, hmod, hmin, hsame⟩ := pyShift_spec idx hidx (weekdayOf now) hwd
  refine ⟨pyShift idx (weekdayOf now), ?_, hs1, hs7,
    dlt_addDays _ now hs1, ?_, ?_, hsame⟩
  · simp only [extract_date, hnum]
    simp [extract_date_rest, h1, h2, h3, h4, hw, weekdayShiftDate]
  · rw [weekdayOf_addDays _ now hv (by omega)]
    exact hmod
  · intro k hk1 hks
    rw [weekdayOf_addDays k now hv (by omega)]
    exact hmin k hks hk1

theorem c8_weekday_strictly_future_witness :
    ∃ s, extract_date ("в среду".data) ⟨2026, 3, 15⟩ =
        some (addDays s ⟨2026, 3, 15⟩) ∧
      1 ≤ s ∧ s ≤ 7 ∧
      dlt ⟨2026, 3, 15⟩ (addDays s ⟨2026, 3, 15⟩) ∧
      weekdayOf (addDays s ⟨2026, 3, 15⟩) = 2 ∧
      (∀ k, 1 ≤ k → k < s → weekdayOf (addDays k ⟨2026, 3, 15⟩) ≠ 2) ∧
      (weekdayOf ⟨2026, 3, 15⟩ = 2 → s = 7) :=
  c8_weekday_strictly_future ("в среду".data) ⟨2026, 3, 15⟩ 2
    (by decide) (by decide) (by decide) (by decide) (by decide) (by decide)
    (by decide) (by decide)
